import Mathlib

/-!
Verification of the Architect Studio pipeline core (TypeScript sources under
`src/studio`): the content fingerprinter (`utils/hash.ts`), the quality-gate
check library (`utils/cross_checks.ts`), the stage executor
(`agents/base.ts`, `BaseAgent.run`), the gate summary aggregation
(`agents/reviewer_verifier.ts`), the scheduler and orchestrator
(`orchestrator/pipeline.ts`) and the audit logger (`orchestrator/audit.ts`).

Artifact values are JavaScript values flowing between stages; we model them
with the JSON-like inductive `Value` below (scalars, arrays, string-keyed
objects, plus `undefined`).  JavaScript `Map`s keyed by strings are modelled
as insertion-ordered association lists with in-place overwrite (`mset`),
which is exactly the observable `Map.set`/`Map.get` behaviour used by the
sources.  Wall-clock timing (`Date.now()`), which the sources only use to
fill `durationMs` fields, is modelled by a constant clock.
-/

namespace ArchitectStudio

/-- JavaScript runtime values as exchanged between pipeline stages: JSON
scalars, arrays, insertion-ordered string-keyed objects, and `undefined`. -/
inductive Value where
  | undefined : Value
  | null : Value
  | bool (b : Bool) : Value
  | num (n : Int) : Value
  | str (s : String) : Value
  | arr (elems : List Value) : Value
  | obj (fields : List (String × Value)) : Value

/-- JavaScript `Map.set` / object property write: overwrite in place if the
key is present (keeping its original position), otherwise append. -/
def mset {α : Type} (m : List (String × α)) (k : String) (v : α) : List (String × α) :=
  match m with
  | [] => [(k, v)]
  | (k1, v1) :: rest => if k1 = k then (k, v) :: rest else (k1, v1) :: mset rest k v

/-- JavaScript `Map.get` / object property read (as an `Option`). -/
def mget {α : Type} (m : List (String × α)) (k : String) : Option α :=
  match m with
  | [] => none
  | (k1, v1) :: rest => if k1 = k then some v1 else mget rest k

theorem mget_mset {α : Type} (m : List (String × α)) (k k' : String) (v : α) :
    mget (mset m k v) k' = if k = k' then some v else mget m k' := by
  induction m with
  | nil =>
    by_cases h : k = k' <;> simp [mset, mget, h]
  | cons hd tl ih =>
    obtain ⟨k1, v1⟩ := hd
    by_cases h1 : k1 = k
    · subst h1
      by_cases h : k1 = k' <;> simp [mset, mget, h]
    · by_cases h2 : k1 = k'
      · subst h2
        have hkk : ¬ k = k1 := fun he => h1 he.symm
        simp [mset, h1, mget, hkk]
      · simp [mset, h1, mget, h2, ih]

theorem mset_of_not_mem {α : Type} (m : List (String × α)) (k : String) (v : α)
    (h : k ∉ m.map Prod.fst) : mset m k v = m ++ [(k, v)] := by
  induction m with
  | nil => rfl
  | cons hd tl ih =>
    obtain ⟨k1, v1⟩ := hd
    simp only [List.map_cons, List.mem_cons] at h
    push_neg at h
    have hne : ¬ k1 = k := fun he => h.1 he.symm
    simp [mset, hne, ih h.2]

/-- JavaScript truthiness: `undefined`, `null`, `false`, `0` and the empty
string are falsy; every other value (including empty arrays and objects) is
truthy. -/
def truthy : Value → Bool
  | .undefined => false
  | .null => false
  | .bool b => b
  | .num n => n != 0
  | .str s => s ≠ ""
  | .arr _ => true
  | .obj _ => true

/-- JavaScript optional chaining `v?.field`: `undefined` when the receiver is
`null`/`undefined`, the property value when the receiver is an object with
that key, and `undefined` for any other access that does not throw. -/
def getField (v : Value) (k : String) : Value :=
  match v with
  | .obj fields => (mget fields k).getD .undefined
  | _ => .undefined -- non-objects have no fields

/-- JavaScript `.length === 0` test as used on values that are arrays or
strings (for other values `.length` is `undefined` and the comparison is
false). -/
def jsLenZero : Value → Bool
  | .arr xs => xs.isEmpty
  | .str s => s.isEmpty
  | _ => false

/-- View a value as an array (the sources only take this view on values that
are arrays at runtime). -/
def asArr : Value → List Value
  | .arr xs => xs
  | _ => []

/-- View a value as a string (the sources only take this view on values that
are strings at runtime). -/
def asStr : Value → String
  | .str s => s
  | _ => ""

/-- Escape one character the way `JSON.stringify` does inside string
literals. -/
def jsonEscapeChar (c : Char) : String :=
  if c = '"' then "\\\""
  else if c = '\\' then "\\\\"
  else if c = '\n' then "\\n"
  else if c = '\t' then "\\t"
  else if c = '\r' then "\\r"
  else String.singleton c

/-- JSON string literal for `s` (quoted and escaped). -/
def jsonQuote (s : String) : String :=
  "\"" ++ String.join (s.toList.map jsonEscapeChar) ++ "\""

mutual

/-- Model of `JSON.stringify(data, null, 0)` from `utils/hash.ts`:
compact serialization, object fields in insertion order, fields whose value
is `undefined` are dropped, array elements that are `undefined` serialize as
`null`, and a top-level `undefined` produces no string at all (JavaScript
returns `undefined`). -/
def stringifyJson : Value → Option String
  | .undefined => none
  | .null => some "null"
  | .bool b => some (if b then "true" else "false")
  | .num n => some (toString n)
  | .str s => some (jsonQuote s)
  | .arr xs => some ("[" ++ String.intercalate "," (stringifyElems xs) ++ "]")
  | .obj fs => some ("\x7b" ++ String.intercalate "," (stringifyFields fs) ++ "\x7d")

/-- Array elements of `JSON.stringify` (`undefined` becomes `null`). -/
def stringifyElems : List Value → List String
  | [] => []
  | v :: vs => (stringifyJson v).getD "null" :: stringifyElems vs

/-- Object fields of `JSON.stringify` (`undefined`-valued fields dropped). -/
def stringifyFields : List (String × Value) → List String
  | [] => []
  | (k, v) :: fs =>
    match stringifyJson v with
    | none => stringifyFields fs
    | some s => (jsonQuote k ++ ":" ++ s) :: stringifyFields fs

end

/-- Model of `computeHash` from `utils/hash.ts`: serialize the value with
`JSON.stringify(data, null, 0)` and digest it with SHA-256, prefixing
`sha256:`.  The SHA-256 primitive comes from `node:crypto`, outside this
repository; following the spec contract for the fingerprinter (stable
deterministic digest of the canonical byte serialization, effectively
collision-free), it is modelled as an ideal injective digest, i.e. the
canonical serialization itself.  Hashing a top-level `undefined` would throw
inside `node:crypto`; that case is unreachable in the modelled runs and is
mapped to a sentinel. -/
def computeHash (v : Value) : String :=
  "sha256:" ++ (stringifyJson v).getD "undefined"

/-- Severity of a gate-check result (`utils/cross_checks.ts`). -/
inductive Severity where
  | error : Severity
  | warning : Severity
  | info : Severity
deriving DecidableEq, Repr

/-- Outcome of one consistency check (`GateCheckResult` in
`utils/cross_checks.ts`). -/
structure GateCheckResult where
  name : String
  passed : Bool
  severity : Severity
  message : String
  details : Option Value := none

/-- Context handed to a gate check (`GateContext` in
`utils/cross_checks.ts`): the artifact map by stage id. -/
structure GateContext where
  outputs : List (String × Value)

/-- JavaScript strict equality `===` (also `Set.has` membership) between two
artifact values.  On scalars it is value equality; on two distinct array or
object values it is false (`===` is reference equality there; the sources
only ever compare strings, where this model is exact). -/
def jsStrictEq (a b : Value) : Bool :=
  match a, b with
  | .undefined, .undefined => true
  | .null, .null => true
  | .bool x, .bool y => x = y
  | .num x, .num y => x = y
  | .str x, .str y => x = y
  | _, _ => false

/-- JavaScript `.length > 0` test (arrays and strings; for other values
`.length` is `undefined` and the comparison is false). -/
def jsLenPos : Value → Bool
  | .arr xs => xs.length > 0
  | .str s => s.data.length > 0
  | _ => false

/-- Read a stage output from the artifact map (`ctx.outputs.get(id)`,
`undefined` when absent). -/
def getOutput (ctx : GateContext) (k : String) : Value :=
  (mget ctx.outputs k).getD .undefined -- missing entries read as undefined

/-- Keys of an object in insertion order (`Object.keys`; the sources only
apply it to objects). -/
def objKeys : Value → List String
  | .obj fs => fs.map Prod.fst
  | _ => []

/-!
JavaScript string operations, implemented over the character list of a
`String` so that they evaluate by kernel reduction.  The sources apply them
to ASCII identifiers, paths and markdown text.
-/

/-- JavaScript `String.prototype.toLowerCase` (ASCII case mapping). -/
def strLower (s : String) : String :=
  ⟨s.data.map Char.toLower⟩

/-- JavaScript `String.prototype.startsWith`. -/
def strStarts (s p : String) : Bool :=
  p.data.isPrefixOf s.data

/-- JavaScript `String.prototype.includes`. -/
def strContains (s p : String) : Bool :=
  s.data.tails.any (fun t => p.data.isPrefixOf t)

/-- Whitespace as matched by JavaScript `trim` / `\s` on the ASCII range. -/
def jsIsSpace (c : Char) : Bool :=
  c == ' ' || c == '\t' || c == '\n' || c == '\r'

/-- JavaScript `String.prototype.trim`. -/
def strTrim (s : String) : String :=
  ⟨((s.data.dropWhile jsIsSpace).reverse.dropWhile jsIsSpace).reverse⟩

/-- Splitting worker for `strSplit`; the fuel argument is an upper bound on
the input length, so the `0` case is unreachable. -/
def splitChars (sep : List Char) : Nat → List Char → List Char → List (List Char)
  | _, cur, [] => [cur.reverse]
  | 0, cur, l => [cur.reverse ++ l]
  | fuel + 1, cur, c :: rest =>
    if sep.isPrefixOf (c :: rest) then
      cur.reverse :: splitChars sep fuel [] (List.drop (sep.length - 1) rest)
    else
      splitChars sep fuel (c :: cur) rest

/-- JavaScript `String.prototype.split` with a nonempty string separator
(the only form the sources use: `split(' ')`, `split('\n')`,
`split(' can ')`). -/
def strSplit (s sep : String) : List String :=
  (splitChars sep.data s.data.length [] s.data).map (fun l => ⟨l⟩)

/-- JavaScript `Array.prototype.join` over strings. -/
def strJoin (sep : String) : List String → String
  | [] => ""
  | [s] => s
  | s :: rest => s ++ sep ++ strJoin sep rest

/-- JavaScript `String.prototype.padStart` with a single-character pad. -/
def strPadStart (s : String) (n : Nat) (c : Char) : String :=
  ⟨List.replicate (n - s.data.length) c ++ s.data⟩

/-- JavaScript `String.prototype.substring(0, n)`. -/
def strTakeN (s : String) (n : Nat) : String :=
  ⟨s.data.take n⟩

mutual

/-- JavaScript `String(value)` as used by template-literal interpolation. -/
def jsToString : Value → String
  | .undefined => "undefined"
  | .null => "null"
  | .bool b => if b then "true" else "false"
  | .num n => toString n
  | .str s => s
  | .arr xs => jsJoinVals "," xs
  | .obj _ => "[object Object]"

/-- JavaScript `Array.prototype.join` over arbitrary values (`null` and
`undefined` elements become empty strings). -/
def jsJoinVals (sep : String) : List Value → String
  | [] => ""
  | [v] =>
    match v with
    | .null => ""
    | .undefined => ""
    | v => jsToString v
  | v :: vs =>
    (match v with
     | .null => ""
     | .undefined => ""
     | v => jsToString v) ++ sep ++ jsJoinVals sep vs

end

/-- Check from `utils/cross_checks.ts` that all use cases have corresponding
API endpoints (`apiUseCaseCoverageCheck`). -/
def apiUseCaseCoverageCheck (ctx : GateContext) : List GateCheckResult :=
  let designBrief := getOutput ctx "requirements-structurer"
  let apiContract := getOutput ctx "api-contract"
  if !truthy (getField designBrief "useCases") || !truthy (getField apiContract "paths") then
    [{ name := "api-usecase-coverage", passed := true, severity := .info,
       message := "Insufficient data for use case coverage check" }]
  else
    let useCaseActions := (asArr (getField designBrief "useCases")).map
      (fun uc => (strSplit (strLower (asStr (getField uc "action"))) " ").headD "")
    let apiPaths := objKeys (getField apiContract "paths")
    let uncovered := useCaseActions.filter
      (fun action => !(apiPaths.any (fun path => strContains (strLower path) action)))
    if uncovered.length > 0 then
      [{ name := "api-usecase-coverage", passed := false, severity := .warning,
         message := "Some use cases lack API coverage: " ++ strJoin ", " uncovered,
         details := some (.obj [("uncoveredUseCases", .arr (uncovered.map .str))]) }]
    else
      [{ name := "api-usecase-coverage", passed := true, severity := .info,
         message := "All " ++ toString useCaseActions.length ++ " use cases have API coverage" }]

/-- Check from `utils/cross_checks.ts` that the component map references
valid domain entities (`componentDomainAlignmentCheck`). -/
def componentDomainAlignmentCheck (ctx : GateContext) : List GateCheckResult :=
  let domainModel := getOutput ctx "domain-model"
  let componentMap := getOutput ctx "system-architect"
  if !truthy (getField domainModel "entities") || !truthy (getField componentMap "components") then
    [{ name := "component-domain-alignment", passed := true, severity := .info,
       message := "Insufficient data for domain alignment check" }]
  else
    let entityNames := (asArr (getField domainModel "entities")).map (fun e => getField e "name")
    let results := (asArr (getField componentMap "components")).filterMap (fun component =>
      let handles := getField component "handlesEntities"
      if truthy handles && jsLenPos handles then
        let invalid := (asArr handles).filter
          (fun e => !(entityNames.any (fun n => jsStrictEq n e)))
        if invalid.length > 0 then
          some { name := "component-domain-alignment", passed := false, severity := .error,
                 message := "Component \"" ++ jsToString (getField component "name") ++
                   "\" references unknown entities: " ++ jsJoinVals ", " invalid,
                 details := some (.obj [("component", getField component "name"),
                   ("invalidEntities", .arr invalid)]) }
        else none
      else none)
    if results.length = 0 then
      [{ name := "component-domain-alignment", passed := true, severity := .info,
         message := "All component entity references are valid" }]
    else
      results

/-- Check from `utils/cross_checks.ts` that the architecture document has
sufficient ADRs (`adrCompletenessCheck`). -/
def adrCompletenessCheck (ctx : GateContext) : List GateCheckResult :=
  let architectData := getOutput ctx "system-architect"
  if !truthy (getField architectData "adrs") then
    [{ name := "adr-completeness", passed := false, severity := .error,
       message := "No ADRs found in architecture output" }]
  else
    let adrs := asArr (getField architectData "adrs")
    let minAdrs : Nat := 3
    if adrs.length < minAdrs then
      [{ name := "adr-completeness", passed := false, severity := .warning,
         message := "Only " ++ toString adrs.length ++ " ADRs found, expected at least " ++
           toString minAdrs,
         details := some (.obj [("adrCount", .num (adrs.length : Int)),
           ("minimum", .num (minAdrs : Int))]) }]
    else
      let adrsWithoutAlternatives := adrs.filter (fun adr =>
        !truthy (getField adr "alternatives") || jsLenZero (getField adr "alternatives"))
      if adrsWithoutAlternatives.length > 0 then
        [{ name := "adr-completeness", passed := false, severity := .warning,
           message := toString adrsWithoutAlternatives.length ++ " ADRs lack alternative options",
           details := some (.obj [("adrsWithoutAlternatives",
             .arr (adrsWithoutAlternatives.map (fun a => getField a "id")))]) }]
      else
        [{ name := "adr-completeness", passed := true, severity := .info,
           message := toString adrs.length ++ " ADRs with alternatives documented" }]

/-- Check from `utils/cross_checks.ts` that prompt packs exist for all
agents (`promptCoverageCheck`). -/
def promptCoverageCheck (ctx : GateContext) : List GateCheckResult :=
  let promptPacks := getOutput ctx "prompt-pack-designer"
  if !truthy (getField promptPacks "packs") then
    [{ name := "prompt-coverage", passed := false, severity := .error,
       message := "No prompt packs generated" }]
  else
    let expectedAgents := ["requirements-structurer", "domain-model", "system-architect",
      "api-contract", "prompt-pack-designer", "scaffold-builder", "reviewer-verifier"]
    let packAgentIds := (asArr (getField promptPacks "packs")).map (fun p => getField p "agentId")
    let missing := expectedAgents.filter
      (fun id => !(packAgentIds.any (fun v => jsStrictEq v (.str id))))
    if missing.length > 0 then
      [{ name := "prompt-coverage", passed := false, severity := .warning,
         message := "Missing prompt packs for: " ++ strJoin ", " missing,
         details := some (.obj [("missingAgents", .arr (missing.map .str))]) }]
    else
      [{ name := "prompt-coverage", passed := true, severity := .info,
         message := "All " ++ toString expectedAgents.length ++ " agents have prompt packs" }]

/-- Check from `utils/cross_checks.ts` that the scaffold has a valid
package.json and scripts (`scaffoldIntegrityCheck`). -/
def scaffoldIntegrityCheck (ctx : GateContext) : List GateCheckResult :=
  let buildPlan := getOutput ctx "scaffold-builder"
  if !truthy (getField buildPlan "files") then
    [{ name := "scaffold-integrity", passed := false, severity := .error,
       message := "No scaffold files generated" }]
  else
    let files := (asArr (getField buildPlan "files")).map (fun f => getField f "path")
    let requiredFiles := ["package.json", "tsconfig.json", "src/index.ts"]
    let missing := requiredFiles.filter
      (fun f => !(files.any (fun v => jsStrictEq v (.str f))))
    if missing.length > 0 then
      [{ name := "scaffold-integrity", passed := false, severity := .error,
         message := "Missing required files: " ++ strJoin ", " missing,
         details := some (.obj [("missingFiles", .arr (missing.map .str))]) }]
    else
      if !truthy (getField buildPlan "scripts") ||
          !truthy (getField (getField buildPlan "scripts") "dev") then
        [{ name := "scaffold-integrity", passed := false, severity := .warning,
           message := "package.json missing dev script" }]
      else
        [{ name := "scaffold-integrity", passed := true, severity := .info,
           message := "Scaffold includes " ++ toString files.length ++
             " files with required structure" }]

/-- Summary block of the gate report
(`ReviewerVerifierAgent`, `agents/reviewer_verifier.ts`). -/
structure GateSummary where
  totalChecks : Nat
  passed : Nat
  warnings : Nat
  errors : Nat
  overallStatus : String
deriving DecidableEq, Repr

/-- Model of `ReviewerVerifierAgent.computeSummary`
(`agents/reviewer_verifier.ts`, lines 123-144). -/
def computeSummary (checks : List GateCheckResult) : GateSummary :=
  let passed := (checks.filter (fun c => c.passed)).length
  let warnings := (checks.filter (fun c => !c.passed && c.severity == Severity.warning)).length
  let errors := (checks.filter (fun c => !c.passed && c.severity == Severity.error)).length
  let overallStatus :=
    if errors > 0 then "failed"
    else if warnings > 0 then "passed-with-warnings"
    else "passed"
  { totalChecks := checks.length, passed := passed, warnings := warnings,
    errors := errors, overallStatus := overallStatus }

/-- Agent configuration (`AgentConfig` in `agents/types.ts`). -/
structure AgentConfig where
  id : String
  name : String
  description : String
  version : String
  inputSchema : String
  outputSchema : String

/-- Result of schema validation (`ValidationResult` in `utils/validate.ts`). -/
structure ValidationResult where
  success : Bool
  errors : Option (List String) := none

/-- Validator boundary (`SchemaValidator.validate(schemaId, value)`): the
validator itself is an external collaborator (AJV, loaded schema files), so
it is passed in as a function, per the spec boundary for the Artifact
Validator (synchronous-or-awaitable, returns a success flag and error
strings). -/
def SchemaValidatorFn : Type := String → Value → ValidationResult

/-- Execution metadata (`AgentMetadata` in `agents/types.ts`). -/
structure AgentMetadata where
  durationMs : Int
  inputHash : String
  outputHash : Option String := none

/-- Outcome of one agent run (`AgentResult` in `agents/types.ts`). -/
structure AgentResult where
  success : Bool
  output : Option Value := none
  errors : Option (List String) := none
  metadata : AgentMetadata

/-- Per-run context (`AgentContext` in `agents/types.ts`); the `timestamp`
`Date` is carried as its ISO string. -/
structure AgentContext where
  runId : String
  timestamp : String
  previousOutputs : List (String × Value)
  verbose : Bool := false

/-- Stage transformation logic (an agent's abstract `execute` method); a
raised fault is modelled by `Except.error` carrying the fault's message
(`error instanceof Error ? error.message : String(error)`). -/
def StageLogic : Type := Value → AgentContext → Except String Value

/-- The `try` block of `BaseAgent.run`: invoke the stage logic, validate the
produced output against the declared output schema (unless the schema id is
blank), fingerprint it and assemble the success result; a fault raised by
the logic is converted by the surrounding `catch` into a failure result
carrying the fault message and the already-computed input hash. -/
def baseAgentTry (config : AgentConfig) (validator : SchemaValidatorFn)
    (execute : StageLogic) (input : Value) (context : AgentContext)
    (inputHash : String) : AgentResult :=
  match execute input context with
  | .error e =>
    { success := false, errors := some [e],
      metadata := { durationMs := 0, inputHash := inputHash } }
  | .ok output =>
    let successResult : AgentResult :=
      { success := true, output := some output,
        metadata := { durationMs := 0, inputHash := inputHash,
                      outputHash := some (computeHash output) } }
    if config.outputSchema != "" && strTrim config.outputSchema != "" then
      let outputValidation := validator config.outputSchema output
      if !outputValidation.success then
        { success := false,
          errors := some ["Output validation failed: " ++
            ((outputValidation.errors.map (strJoin ", ")).getD "undefined")],
          metadata := { durationMs := 0, inputHash := inputHash } }
      else
        successResult
    else
      successResult

/-- Model of `BaseAgent.run` (`agents/base.ts`): fingerprint the input,
validate it against the declared input schema when one is declared (a blank
or whitespace-only schema id skips validation), then run the `try` block
above.  `durationMs` is wall-clock time, modelled by the constant clock. -/
def baseAgentRun (config : AgentConfig) (validator : SchemaValidatorFn)
    (execute : StageLogic) (input : Value) (context : AgentContext) : AgentResult :=
  let inputHash := computeHash input
  if config.inputSchema != "" && strTrim config.inputSchema != "" then
    let inputValidation := validator config.inputSchema input
    if !inputValidation.success then
      { success := false,
        errors := some ["Input validation failed: " ++
          ((inputValidation.errors.map (strJoin ", ")).getD "undefined")],
        metadata := { durationMs := 0, inputHash := inputHash } }
    else
      baseAgentTry config validator execute input context inputHash
  else
    baseAgentTry config validator execute input context inputHash

/-- A gate-check function as attached to a pipeline stage (`GateCheckFn`);
`Except.error` models the check raising a fault. -/
def GateCheck : Type := GateContext → Except String (List GateCheckResult)

/-- Lift one of the pure library checks to a stage-attachable check (the
library checks never raise). -/
def pureCheck (f : GateContext → List GateCheckResult) : GateCheck :=
  fun ctx => .ok (f ctx)

/-- A pipeline stage declaration (`PipelineStage` in `agents/registry.ts`). -/
structure PipelineStage where
  agentId : String
  dependsOn : List String
  gateChecks : Option (List GateCheck) := none

/-- An agent as the orchestrator sees it: its `run` method.  `Except.error`
models a fault escaping `run` (e.g. one raised by the validator, which
`BaseAgent.run` does not catch). -/
def Agent : Type := Value → AgentContext → Except String AgentResult

/-- In-degree table built by `PipelineOrchestrator.topologicalSort`: one
`Map.set` per stage, in declaration order. -/
def buildInDegree (stages : List PipelineStage) : List (String × Int) :=
  stages.foldl (fun m stage => mset m stage.agentId (stage.dependsOn.length : Int)) []

/-- Adjacency lists built by `PipelineOrchestrator.topologicalSort`:
`graph[dep]` accumulates, in construction order, the ids of the stages
declaring `dep` as a dependency (one entry per declaration). -/
def buildGraph (stages : List PipelineStage) : List (String × List String) :=
  stages.foldl (fun g stage =>
    stage.dependsOn.foldl (fun g1 dep =>
      mset g1 dep (((mget g1 dep).getD []) ++ [stage.agentId])) g) []

/-- Dependent-processing pass of the Kahn loop: for each id on the popped
stage's adjacency list, decrement its in-degree and, exactly when it reaches
zero, enqueue the (first) stage declared with that id.  `mget ... |>.getD 0`
models the non-null assertion `inDegree.get(depId)!` (adjacency ids are
always declared stage ids, so the entry is present). -/
def processDeps (stages : List PipelineStage) :
    List String → List PipelineStage → List (String × Int) →
    List PipelineStage × List (String × Int)
  | [], queue, inDegree => (queue, inDegree)
  | depId :: rest, queue, inDegree =>
    let deg := ((mget inDegree depId).getD 0) - 1
    let inDegree1 := mset inDegree depId deg
    if deg = 0 then
      match stages.find? (fun s => s.agentId == depId) with
      | some depStage => processDeps stages rest (queue ++ [depStage]) inDegree1
      | none => processDeps stages rest queue inDegree1
    else
      processDeps stages rest queue inDegree1

/-- The `while (queue.length > 0)` loop of `topologicalSort`, returning the
final sorted list, queue and in-degree table.  The fuel only makes the
recursion structural: each iteration pops one stage and every stage is
enqueued at most once (seeding, plus at most one zero-transition of each
in-degree entry), so `2 * stages.length + 1` iterations can never be
reached. -/
def sortLoop (stages : List PipelineStage) (graph : List (String × List String)) :
    Nat → List PipelineStage → List (String × Int) → List PipelineStage →
    List PipelineStage × List PipelineStage × List (String × Int)
  | _, [], inDegree, sorted => (sorted, [], inDegree)
  | 0, queue, inDegree, sorted => (sorted, queue, inDegree)
  | fuel + 1, stage :: queue, inDegree, sorted =>
    let dependents := (mget graph stage.agentId).getD []
    let next := processDeps stages dependents queue inDegree
    sortLoop stages graph fuel next.1 next.2 (sorted ++ [stage])

/-- Model of `PipelineOrchestrator.topologicalSort`
(`orchestrator/pipeline.ts`, lines 197-242): Kahn's algorithm, seeded with
the zero-dependency stages in declaration order.  The function is total and
returns a plain list — no error is ever surfaced; on a cyclic or dangling
configuration the returned order is silently shorter than the stage list. -/
def topologicalSort (stages : List PipelineStage) : List PipelineStage :=
  let inDegree := buildInDegree stages
  let graph := buildGraph stages
  let queue := stages.filter (fun s => s.dependsOn.length == 0)
  (sortLoop stages graph (2 * stages.length + 1) queue inDegree []).1

/-- One audit log record (`AuditLogEntry` in `orchestrator/audit.ts`), its
wall-clock timestamp modelled by the constant clock. -/
structure AuditEvent where
  runId : String
  level : String
  agentId : Option String := none
  message : String
  data : Option (List (String × Value)) := none

/-- Per-stage entry of a run audit (`RunAudit.stages`). -/
structure StageAudit where
  agentId : String
  startTime : String
  endTime : String
  durationMs : Int
  inputHash : String
  outputHash : Option String
  success : Bool
  errors : Option (List String)

/-- Durable record of one run (`RunAudit` in `orchestrator/audit.ts`);
`specPath`/`specProjectName` flatten the nested `spec` record, and the
always-empty `outputs` record is omitted. -/
structure RunAudit where
  runId : String
  startTime : String
  endTime : Option String
  inputHash : String
  specPath : String
  specProjectName : String
  stages : List StageAudit
  overallStatus : String
  totalDurationMs : Option Int

/-- State of the audit sinks (`AuditLogger`): the append-only JSONL event
log, and the run-summary snapshots written by `saveRunAudit` (one list entry
per write). -/
structure AuditState where
  events : List AuditEvent
  savedAudits : List RunAudit

/-- Append one record to the JSONL event log (`AuditLogger.log`). -/
def logEvent (aud : AuditState) (e : AuditEvent) : AuditState :=
  { aud with events := aud.events ++ [e] }

/-- Write the run summary (`AuditLogger.saveRunAudit`). -/
def saveRunAudit (aud : AuditState) (audit : RunAudit) : AuditState :=
  { aud with savedAudits := aud.savedAudits ++ [audit] }

/-- Internal per-stage record of the orchestrator (`StageResult` in
`orchestrator/pipeline.ts`). -/
structure StageResult where
  agentId : String
  success : Bool
  output : Option Value
  durationMs : Int
  inputHash : String
  outputHash : Option String
  errors : Option (List String)
  gateResults : Option (List GateCheckResult) := none

/-- Result of `PipelineOrchestrator.run` (`PipelineResult`). -/
structure PipelineResult where
  success : Bool
  runId : String
  outputs : List (String × Value)
  failedAt : Option String := none
  errors : Option (List String) := none
  audit : RunAudit

/-- Model of `PipelineOrchestrator.buildAudit` (lines 269-300): assemble the
`RunAudit` snapshot from the collected stage results.  Wall-clock values
(ISO time strings, total duration) come from the modelled constant clock. -/
def buildAudit (runId startTime endTime inputHash : String)
    (stageResults : List StageResult) (status : String) : RunAudit :=
  { runId := runId, startTime := startTime, endTime := some endTime,
    inputHash := inputHash, specPath := "", specProjectName := "",
    stages := stageResults.map (fun sr =>
      { agentId := sr.agentId, startTime := "", endTime := "",
        durationMs := sr.durationMs, inputHash := sr.inputHash,
        outputHash := sr.outputHash, success := sr.success, errors := sr.errors }),
    overallStatus := status, totalDurationMs := some 0 }

/-- Model of `PipelineOrchestrator.buildFailureResult` (lines 248-267).  The
returned artifact map is `new Map()` — empty; the audit is built with status
`failed` but is not passed to `saveRunAudit`. -/
def buildFailureResult (runId startTime inputHash failedAt : String)
    (errors : Option (List String)) (stageResults : List StageResult) : PipelineResult :=
  { success := false, runId := runId, outputs := [],
    failedAt := some failedAt, errors := errors,
    audit := buildAudit runId startTime startTime inputHash stageResults "failed" }

/-- Static dependency-id-to-input-key table of
`PipelineOrchestrator.dependencyToKey` (lines 174-184), falling back to the
agent id itself (`keyMap[agentId] || agentId`). -/
def dependencyToKey (agentId : String) : String :=
  let keyMap : List (String × String) :=
    [("requirements-structurer", "designBrief"),
     ("domain-model", "domainModel"),
     ("system-architect", "componentMap"),
     ("api-contract", "apiContract"),
     ("prompt-pack-designer", "promptPacks"),
     ("scaffold-builder", "buildPlan")]
  match mget keyMap agentId with
  | some k => k
  | none => agentId

/-- Model of `PipelineOrchestrator.resolveInputs` (lines 154-172): zero
dependencies — the reserved `"input"` artifact; one dependency — that
dependency's stored output unchanged; several — a fresh object assigning
each dependency's output to its fixed key. -/
def resolveInputs (stage : PipelineStage) (outputs : List (String × Value)) : Value :=
  if stage.dependsOn.length = 0 then
    (mget outputs "input").getD .undefined
  else if stage.dependsOn.length = 1 then
    (mget outputs (stage.dependsOn.headD "")).getD .undefined
  else
    .obj (stage.dependsOn.foldl (fun acc depId =>
      mset acc (dependencyToKey depId) ((mget outputs depId).getD .undefined)) [])

/-- Worker for `runGateChecks`: invoke each check in order, concatenating
result lists; there is no try/catch around the invocation, so a raised
fault propagates immediately. -/
def runGateChecksAux : List GateCheck → GateContext → List GateCheckResult →
    Except String (List GateCheckResult)
  | [], _, results => .ok results
  | check :: rest, ctx, results =>
    match check ctx with
    | .error e => .error e
    | .ok rs => runGateChecksAux rest ctx (results ++ rs)

/-- Model of `PipelineOrchestrator.runGateChecks` (lines 186-195). -/
def runGateChecks (checks : List GateCheck) (outputs : List (String × Value)) :
    Except String (List GateCheckResult) :=
  runGateChecksAux checks { outputs := outputs } []

/-- The `data: Record` payload `{ errors: result.errors }` of the
stage-failure audit event. -/
def errorsToValue : Option (List String) → Value
  | none => .undefined
  | some es => .arr (es.map .str)

/-- The per-stage loop and epilogue of `PipelineOrchestrator.run` (lines
69-152), with the mutable locals (`context.previousOutputs`, `stageResults`)
and the audit sinks threaded explicitly.  A first component `Except.error`
models a fault escaping `run` itself (an agent `run` or a gate check
raising); the audit events recorded before the fault are still in the
returned state. -/
def runStages (agents : List (String × Agent)) (runId startTime inputHash : String)
    (verbose : Bool) :
    List PipelineStage → List (String × Value) → List StageResult → AuditState →
    (Except String PipelineResult) × AuditState
  | [], outputs, stageResults, aud =>
    let doneEvent : AuditEvent :=
      { runId := runId, level := "info", message := "Pipeline completed successfully",
        data := some [("totalDurationMs", .num 0),
                      ("stagesCompleted", .num (stageResults.length : Int))] }
    let aud1 := logEvent aud doneEvent
    let audit := buildAudit runId startTime startTime inputHash stageResults "success"
    let aud2 := saveRunAudit aud1 audit
    (.ok { success := true, runId := runId, outputs := outputs, audit := audit }, aud2)
  | stage :: rest, outputs, stageResults, aud =>
    match mget agents stage.agentId with
    | none =>
      let err := "Agent not found: " ++ stage.agentId
      let errEvent : AuditEvent := { runId := runId, level := "error", message := err }
      let aud1 := logEvent aud errEvent
      (.ok (buildFailureResult runId startTime inputHash stage.agentId
        (some [err]) stageResults), aud1)
    | some agent =>
      let startEvent : AuditEvent :=
        { runId := runId, level := "info", agentId := some stage.agentId,
          message := "Starting" }
      let aud1 := logEvent aud startEvent
      let input := resolveInputs stage outputs
      let context : AgentContext :=
        { runId := runId, timestamp := startTime, previousOutputs := outputs,
          verbose := verbose }
      match agent input context with
      | .error e => (.error e, aud1)
      | .ok result =>
        let stageResult : StageResult :=
          { agentId := stage.agentId, success := result.success, output := result.output,
            durationMs := 0, inputHash := result.metadata.inputHash,
            outputHash := result.metadata.outputHash, errors := result.errors }
        if !result.success then
          let failEvent : AuditEvent :=
            { runId := runId, level := "error",
              message := "Agent " ++ stage.agentId ++ " failed",
              data := some [("errors", errorsToValue result.errors)] }
          let aud2 := logEvent aud1 failEvent
          (.ok (buildFailureResult runId startTime inputHash stage.agentId
            result.errors (stageResults ++ [stageResult])), aud2)
        else
          let outputs1 := mset outputs stage.agentId (result.output.getD .undefined)
          match stage.gateChecks with
          | some checks =>
            (match runGateChecks checks outputs1 with
             | .error e => (.error e, aud1)
             | .ok gateResults =>
               let stageResult1 := { stageResult with gateResults := some gateResults }
               let failures := gateResults.filter
                 (fun r => !r.passed && r.severity == Severity.error)
               if failures.length > 0 then
                 let gateEvent : AuditEvent :=
                   { runId := runId, level := "error",
                     message := "Gate checks failed for " ++ stage.agentId,
                     data := some [("failures",
                       .arr (failures.map (fun f => .str f.message)))] }
                 let aud2 := logEvent aud1 gateEvent
                 (.ok (buildFailureResult runId startTime inputHash
                   (stage.agentId ++ ":gate") (some (failures.map (fun f => f.message)))
                   (stageResults ++ [stageResult1])), aud2)
               else
                 let stageEvent : AuditEvent :=
                   { runId := runId, level := "info", agentId := some stage.agentId,
                     message := "Completed in 0ms" }
                 let aud2 := logEvent aud1 stageEvent
                 runStages agents runId startTime inputHash verbose rest outputs1
                   (stageResults ++ [stageResult1]) aud2)
          | none =>
            let stageEvent : AuditEvent :=
              { runId := runId, level := "info", agentId := some stage.agentId,
                message := "Completed in 0ms" }
            let aud2 := logEvent aud1 stageEvent
            runStages agents runId startTime inputHash verbose rest outputs1
              (stageResults ++ [stageResult]) aud2

/-- Model of `PipelineOrchestrator.run` (`orchestrator/pipeline.ts`, lines
52-152).  The run id comes from `randomUUID()` (`node:crypto`) and the start
time from `new Date()`: both are environment-supplied, fresh per run, and
are passed in as oracle inputs. -/
def pipelineRun (agents : List (String × Agent)) (stages : List PipelineStage)
    (runId startTime : String) (initialInput : Value) (verbose : Bool := false) :
    (Except String PipelineResult) × AuditState :=
  let inputHash := computeHash initialInput
  let aud := logEvent { events := [], savedAudits := [] }
    { runId := runId, level := "info", message := "Pipeline started",
      data := some [("inputHash", .str inputHash)] }
  let sortedStages := topologicalSort stages
  runStages agents runId startTime inputHash verbose sortedStages
    [("input", initialInput)] [] aud

/-! Theorems. -/

theorem filter_failed_severity_pos (checks : List GateCheckResult) (sev : Severity) :
    0 < (checks.filter fun c => !c.passed && c.severity == sev).length ↔
      ∃ c ∈ checks, c.passed = false ∧ c.severity = sev := by
  rw [List.length_pos]
  constructor
  · intro h
    obtain ⟨c, hc⟩ := List.exists_mem_of_ne_nil _ h
    have hmem := List.mem_filter.mp hc
    refine ⟨c, hmem.1, ?_⟩
    have := hmem.2
    simp only [Bool.and_eq_true, Bool.not_eq_true', beq_iff_eq] at this
    exact this
  · rintro ⟨c, hc, hp, hs⟩
    intro hnil
    have : c ∈ checks.filter fun c => !c.passed && c.severity == sev := by
      refine List.mem_filter.mpr ⟨hc, ?_⟩
      simp [hp, hs]
    rw [hnil] at this
    exact absurd this (List.not_mem_nil c)

/-- C8: for any list of `GateCheckResult`s, `computeSummary` returns
`overallStatus = "failed"` iff at least one result has severity `error` and
`passed = false`; otherwise it returns `"passed-with-warnings"` iff at least
one result has severity `warning` and `passed = false`; otherwise it returns
`"passed"`. -/
theorem computeSummary_gate_aggregation (checks : List GateCheckResult) :
    ((computeSummary checks).overallStatus = "failed" ↔
      ∃ c ∈ checks, c.passed = false ∧ c.severity = Severity.error) ∧
    ((¬ ∃ c ∈ checks, c.passed = false ∧ c.severity = Severity.error) →
      ((computeSummary checks).overallStatus = "passed-with-warnings" ↔
        ∃ c ∈ checks, c.passed = false ∧ c.severity = Severity.warning)) ∧
    ((¬ ∃ c ∈ checks, c.passed = false ∧ c.severity = Severity.error) →
      (¬ ∃ c ∈ checks, c.passed = false ∧ c.severity = Severity.warning) →
      (computeSummary checks).overallStatus = "passed") := by
  have he := filter_failed_severity_pos checks Severity.error
  have hw := filter_failed_severity_pos checks Severity.warning
  by_cases h1 : 0 < (checks.filter fun c => !c.passed && c.severity == Severity.error).length
  · have hE := he.mp h1
    have hstatus : (computeSummary checks).overallStatus = "failed" := by
      simp only [computeSummary]
      simp [h1]
    exact ⟨⟨fun _ => hE, fun _ => hstatus⟩,
      fun hne => absurd hE hne, fun hne _ => absurd hE hne⟩
  · by_cases h2 : 0 < (checks.filter fun c => !c.passed && c.severity == Severity.warning).length
    · have hW := hw.mp h2
      have hstatus : (computeSummary checks).overallStatus = "passed-with-warnings" := by
        simp only [computeSummary]
        simp [h1, h2]
      refine ⟨⟨fun hb => ?_, fun hE => absurd (he.mpr hE) h1⟩,
        fun _ => ⟨fun _ => hW, fun _ => hstatus⟩, fun _ hnw => absurd hW hnw⟩
      rw [hstatus] at hb
      exact absurd hb (by decide)
    · have hstatus : (computeSummary checks).overallStatus = "passed" := by
        simp only [computeSummary]
        simp [h1, h2]
      refine ⟨⟨fun hb => ?_, fun hE => absurd (he.mpr hE) h1⟩,
        fun _ => ⟨fun hb => ?_, fun hW => absurd (hw.mpr hW) h2⟩, fun _ _ => hstatus⟩
      · rw [hstatus] at hb
        exact absurd hb (by decide)
      · rw [hstatus] at hb
        exact absurd hb (by decide)

/-- A single failed warning-severity check result, for witnesses. -/
def warnResult : GateCheckResult :=
  { name := "w", passed := false, severity := .warning, message := "m" }

/-- Witness for C8: on a list holding one failed warning (and no failed
error), the aggregation yields `"passed-with-warnings"`. -/
theorem computeSummary_gate_aggregation_witness :
    (computeSummary [warnResult]).overallStatus = "passed-with-warnings" :=
  ((computeSummary_gate_aggregation [warnResult]).2.1
      (by decide)).mpr ⟨warnResult, List.Mem.head [], rfl, rfl⟩

/-- Counterexample to C4: on an artifact map that lacks the artifacts they
need, `adrCompletenessCheck`, `promptCoverageCheck` and
`scaffoldIntegrityCheck` each return a single result with `passed = false`
and `severity = error` — not the `passed = true`, `severity = info`
"insufficient data" result the claim requires of every check in the
library. -/
theorem gateChecks_missing_data_counterexample :
    (adrCompletenessCheck { outputs := [] }).map (fun r => (r.passed, r.severity)) =
      [(false, Severity.error)] ∧
    (promptCoverageCheck { outputs := [] }).map (fun r => (r.passed, r.severity)) =
      [(false, Severity.error)] ∧
    (scaffoldIntegrityCheck { outputs := [] }).map (fun r => (r.passed, r.severity)) =
      [(false, Severity.error)] :=
  ⟨rfl, rfl, rfl⟩

/-- C4 (amended): when the artifact map lacks the artifacts a check needs,
`apiUseCaseCoverageCheck` and `componentDomainAlignmentCheck` return a
single `passed = true`, `severity = info` insufficient-data result, but
`adrCompletenessCheck`, `promptCoverageCheck` and `scaffoldIntegrityCheck`
return a single `passed = false`, `severity = error` result reporting the
missing artifact. -/
theorem gateChecks_missing_data (ctx : GateContext) :
    ((truthy (getField (getOutput ctx "requirements-structurer") "useCases") = false ∨
      truthy (getField (getOutput ctx "api-contract") "paths") = false) →
      apiUseCaseCoverageCheck ctx =
        [{ name := "api-usecase-coverage", passed := true, severity := .info,
           message := "Insufficient data for use case coverage check" }]) ∧
    ((truthy (getField (getOutput ctx "domain-model") "entities") = false ∨
      truthy (getField (getOutput ctx "system-architect") "components") = false) →
      componentDomainAlignmentCheck ctx =
        [{ name := "component-domain-alignment", passed := true, severity := .info,
           message := "Insufficient data for domain alignment check" }]) ∧
    (truthy (getField (getOutput ctx "system-architect") "adrs") = false →
      adrCompletenessCheck ctx =
        [{ name := "adr-completeness", passed := false, severity := .error,
           message := "No ADRs found in architecture output" }]) ∧
    (truthy (getField (getOutput ctx "prompt-pack-designer") "packs") = false →
      promptCoverageCheck ctx =
        [{ name := "prompt-coverage", passed := false, severity := .error,
           message := "No prompt packs generated" }]) ∧
    (truthy (getField (getOutput ctx "scaffold-builder") "files") = false →
      scaffoldIntegrityCheck ctx =
        [{ name := "scaffold-integrity", passed := false, severity := .error,
           message := "No scaffold files generated" }]) := by
  refine ⟨?_, ?_, ?_, ?_, ?_⟩
  · rintro (h | h) <;> simp [apiUseCaseCoverageCheck, h]
  · rintro (h | h) <;> simp [componentDomainAlignmentCheck, h]
  · intro h
    simp [adrCompletenessCheck, h]
  · intro h
    simp [promptCoverageCheck, h]
  · intro h
    simp [scaffoldIntegrityCheck, h]

/-- Witness for C4 (amended): on the empty artifact map, the coverage check
reports insufficient data with `passed = true`, `severity = info`. -/
theorem gateChecks_missing_data_witness :
    apiUseCaseCoverageCheck { outputs := [] } =
      [{ name := "api-usecase-coverage", passed := true, severity := .info,
         message := "Insufficient data for use case coverage check" }] :=
  (gateChecks_missing_data { outputs := [] }).1 (Or.inl rfl)

theorem foldl_mset_of_nodup {β : Type} (f : β → String) (g : β → Value)
    (l : List β) (acc : List (String × Value))
    (hnd : (l.map f).Nodup) (hdisj : ∀ b ∈ l, f b ∉ acc.map Prod.fst) :
    l.foldl (fun m b => mset m (f b) (g b)) acc = acc ++ l.map (fun b => (f b, g b)) := by
  induction l generalizing acc with
  | nil => simp
  | cons hd tl ih =>
    simp only [List.foldl_cons]
    rw [mset_of_not_mem _ _ _ (hdisj hd (List.Mem.head tl))]
    have hd2 : ∀ b ∈ tl, f b ∉ (acc ++ [(f hd, g hd)]).map Prod.fst := by
      intro b hb
      simp only [List.map_append, List.mem_append]
      rintro (hmem | hmem)
      · exact hdisj b (List.Mem.tail hd hb) hmem
      · simp only [List.map_cons, List.map_nil, List.mem_singleton] at hmem
        have hninj : f hd ∉ tl.map f := (List.nodup_cons.mp hnd).1
        exact hninj (hmem ▸ List.mem_map_of_mem f hb)
    rw [ih (acc ++ [(f hd, g hd)]) (List.Nodup.of_cons hnd) hd2]
    simp

/-- C10: `resolveInputs` resolves a stage's input as: zero dependencies —
the value stored under the reserved `"input"` key; exactly one dependency —
that dependency's stored output, passed through unchanged; several — a
freshly built object assigning each dependency's stored output to that
dependency's fixed key from the static table (`dependencyToKey`), provided
the derived keys are pairwise distinct (as they are on the static
pipeline). -/
theorem resolveInputs_spec (stage : PipelineStage) (outputs : List (String × Value)) :
    (stage.dependsOn = [] →
      resolveInputs stage outputs = (mget outputs "input").getD .undefined) ∧
    (∀ a, stage.dependsOn = [a] →
      resolveInputs stage outputs = (mget outputs a).getD .undefined) ∧
    (2 ≤ stage.dependsOn.length →
      (stage.dependsOn.map dependencyToKey).Nodup →
      resolveInputs stage outputs =
        .obj (stage.dependsOn.map
          (fun d => (dependencyToKey d, (mget outputs d).getD .undefined)))) := by
  refine ⟨?_, ?_, ?_⟩
  · intro h
    simp [resolveInputs, h]
  · intro a h
    simp [resolveInputs, h]
  · intro hlen hnd
    have h0 : ¬ stage.dependsOn.length = 0 := by omega
    have h1 : ¬ stage.dependsOn.length = 1 := by omega
    simp only [resolveInputs, if_neg h0, if_neg h1]
    rw [foldl_mset_of_nodup dependencyToKey (fun d => (mget outputs d).getD .undefined)
      stage.dependsOn [] hnd (by simp)]
    simp

/-- Artifact map used by the C10 witness. -/
def inputAssemblyOutputs : List (String × Value) :=
  [("input", .str "init"), ("requirements-structurer", .str "brief"),
   ("domain-model", .str "dm")]

/-- Witness for C10: a zero-dependency stage receives the reserved input, a
one-dependency stage its dependency's output unchanged, and a stage with
`dependsOn = [requirements-structurer, domain-model]` receives exactly the
object mapping `designBrief` and `domainModel` to the stored outputs. -/
theorem resolveInputs_spec_witness :
    resolveInputs { agentId := "requirements-structurer", dependsOn := [] }
      inputAssemblyOutputs = .str "init" ∧
    resolveInputs { agentId := "domain-model", dependsOn := ["requirements-structurer"] }
      inputAssemblyOutputs = .str "brief" ∧
    resolveInputs
      { agentId := "system-architect",
        dependsOn := ["requirements-structurer", "domain-model"] }
      inputAssemblyOutputs =
      .obj [("designBrief", .str "brief"), ("domainModel", .str "dm")] :=
  ⟨((resolveInputs_spec _ inputAssemblyOutputs).1 rfl).trans rfl,
   ((resolveInputs_spec _ inputAssemblyOutputs).2.1 "requirements-structurer" rfl).trans rfl,
   ((resolveInputs_spec _ inputAssemblyOutputs).2.2 (by decide) (by decide)).trans rfl⟩

/-- C7: `BaseAgent.run` never lets a fault raised by the stage's execute
logic escape to its caller: when input validation passes (or is skipped)
and the logic raises, the fault is converted to an `AgentResult` with
`success = false`, `errors` holding the fault's message, and the
already-computed input hash; and in every returned `AgentResult` exactly one
of `output` and `errors` is populated, with `output` present iff
`success`. -/
theorem baseAgentRun_fault_capture (config : AgentConfig) (validator : SchemaValidatorFn)
    (execute : StageLogic) (input : Value) (context : AgentContext) :
    ((config.inputSchema = "" ∨ strTrim config.inputSchema = "" ∨
        (validator config.inputSchema input).success = true) →
      ∀ msg, execute input context = .error msg →
        baseAgentRun config validator execute input context =
          { success := false, errors := some [msg],
            metadata := { durationMs := 0, inputHash := computeHash input } }) ∧
    ((baseAgentRun config validator execute input context).output.isSome =
      (baseAgentRun config validator execute input context).success) ∧
    ((baseAgentRun config validator execute input context).errors.isSome =
      !(baseAgentRun config validator execute input context).success) := by
  refine ⟨?_, ?_⟩
  · intro hval msg hexec
    unfold baseAgentRun
    by_cases h1 : (config.inputSchema != "" && strTrim config.inputSchema != "") = true
    · rw [if_pos h1]
      have hsucc : (validator config.inputSchema input).success = true := by
        rcases hval with h | h | h
        · rw [h] at h1
          simp at h1
        · rw [h] at h1
          simp at h1
        · exact h
      rw [if_neg (by simp [hsucc])]
      unfold baseAgentTry
      rw [hexec]
    · rw [if_neg h1]
      unfold baseAgentTry
      rw [hexec]
  · by_cases h1 : (config.inputSchema != "" && strTrim config.inputSchema != "") = true
    · by_cases h2 : (!(validator config.inputSchema input).success) = true
      · simp [baseAgentRun, h1, h2]
      · cases hex : execute input context with
        | error e => simp [baseAgentRun, baseAgentTry, h1, h2, hex]
        | ok output =>
          by_cases h3 : (config.outputSchema != "" && strTrim config.outputSchema != "") = true
          · by_cases h4 : (!(validator config.outputSchema output).success) = true
            · simp [baseAgentRun, baseAgentTry, h1, h2, h3, h4, hex]
            · simp [baseAgentRun, baseAgentTry, h1, h2, h3, h4, hex]
          · simp [baseAgentRun, baseAgentTry, h1, h2, h3, hex]
    · cases hex : execute input context with
      | error e => simp [baseAgentRun, baseAgentTry, h1, hex]
      | ok output =>
        by_cases h3 : (config.outputSchema != "" && strTrim config.outputSchema != "") = true
        · by_cases h4 : (!(validator config.outputSchema output).success) = true
          · simp [baseAgentRun, baseAgentTry, h1, h3, h4, hex]
          · simp [baseAgentRun, baseAgentTry, h1, h3, h4, hex]
        · simp [baseAgentRun, baseAgentTry, h1, h3, hex]

/-!
Concrete scenario material: pass-through and raising stage agents over the
modelled `BaseAgent.run`, wired into small pipelines, mirroring the spec's
scenarios A-D.
-/

/-- Validator used by the concrete scenarios: accepts everything (the
scenario stages declare no schemas, so it is never consulted). -/
def okValidator : SchemaValidatorFn := fun _ _ => { success := true }

/-- Minimal agent configuration with no declared schemas. -/
def mkConfig (id : String) : AgentConfig :=
  { id := id, name := id, description := "", version := "1.0.0",
    inputSchema := "", outputSchema := "" }

/-- A pass-through stage agent: its logic returns its input unchanged. -/
def passAgent (id : String) : Agent :=
  fun input ctx => .ok (baseAgentRun (mkConfig id) okValidator (fun i _ => .ok i) input ctx)

/-- A stage agent whose logic raises with the given message. -/
def raisingAgent (id msg : String) : Agent :=
  fun input ctx => .ok (baseAgentRun (mkConfig id) okValidator (fun _ _ => .error msg) input ctx)

def stageA : PipelineStage := { agentId := "A", dependsOn := [] }

def stageB : PipelineStage := { agentId := "B", dependsOn := ["A"] }

def stageC : PipelineStage := { agentId := "C", dependsOn := ["B"] }

/-- Agents for spec scenario B: `A → B → C`, `B`'s logic raises. -/
def scenarioBAgents : List (String × Agent) :=
  [("A", passAgent "A"), ("B", raisingAgent "B" "B exploded"), ("C", passAgent "C")]

/-- Spec scenario B run: 3-stage pipeline `A → B → C` with `B` raising. -/
def scenarioBRun : (Except String PipelineResult) × AuditState :=
  pipelineRun scenarioBAgents [stageA, stageB, stageC] "run-1"
    "2026-01-01T00:00:00.000Z" (.obj [("n", .num 1)])

/-- Fallback result for projecting a known-`ok` run result. -/
def fallbackResult : PipelineResult :=
  { success := true, runId := "", outputs := [],
    audit := buildAudit "" "" "" "" [] "success" }

/-- The (successful-`Except`) result of scenario B. -/
def scenarioBResult : PipelineResult :=
  (scenarioBRun.1.toOption).getD fallbackResult

/-- Two pass-through agents `A`, `B` for the remaining scenarios. -/
def twoAgents : List (String × Agent) :=
  [("A", passAgent "A"), ("B", passAgent "B")]

/-- A gate check that always reports a fatal error (spec scenario C). -/
def alwaysErrorCheck : GateCheck :=
  pureCheck (fun _ =>
    [{ name := "always-fail", passed := false, severity := .error, message := "nope" }])

def stageAWithErrorGate : PipelineStage :=
  { agentId := "A", dependsOn := [], gateChecks := some [alwaysErrorCheck] }

/-- Spec scenario C run: stage `A` succeeds but its gate check reports a
fatal error; `B` must not run. -/
def scenarioGateRun : (Except String PipelineResult) × AuditState :=
  pipelineRun twoAgents [stageAWithErrorGate, stageB] "run-2"
    "2026-01-01T00:00:00.000Z" (.str "in")

/-- A fully successful run (spec scenario A shape): `A → B`, both pass. -/
def scenarioOKRun : (Except String PipelineResult) × AuditState :=
  pipelineRun twoAgents [stageA, stageB] "run-0"
    "2026-01-01T00:00:00.000Z" (.str "in")

/-- The (successful-`Except`) result of the successful scenario. -/
def scenarioOKResult : PipelineResult :=
  (scenarioOKRun.1.toOption).getD fallbackResult

/-- A gate check whose invocation raises. -/
def throwingCheck : GateCheck := fun _ => .error "check blew up"

def stageAWithThrowingGate : PipelineStage :=
  { agentId := "A", dependsOn := [], gateChecks := some [throwingCheck] }

/-- Run with a raising gate check on stage `A` of `A → B`. -/
def scenarioThrowRun : (Except String PipelineResult) × AuditState :=
  pipelineRun twoAgents [stageAWithThrowingGate, stageB] "run-3"
    "2026-01-01T00:00:00.000Z" (.str "in")

/-- Witness for C7: a concrete raising stage logic is converted to a
structured failure result carrying the fault message and input hash. -/
theorem baseAgentRun_fault_capture_witness :
    baseAgentRun (mkConfig "w") okValidator (fun _ _ => .error "boom") (.str "x")
      { runId := "r", timestamp := "t", previousOutputs := [] } =
      { success := false, errors := some ["boom"],
        metadata := { durationMs := 0, inputHash := computeHash (.str "x") } } :=
  (baseAgentRun_fault_capture (mkConfig "w") okValidator (fun _ _ => .error "boom")
    (.str "x") { runId := "r", timestamp := "t", previousOutputs := [] }).1
    (Or.inl rfl) "boom" rfl

/-- Failure and success characterization of the orchestrator loop: an `ok`
result that is a failure has an empty artifact map, a set `failedAt` and a
`failed` audit, and saves nothing; a success result has a `success` audit
saved exactly once. -/
theorem runStages_ok_spec (agents : List (String × Agent))
    (runId startTime inputHash : String) (verbose : Bool)
    (stages : List PipelineStage) (outputs : List (String × Value))
    (stageResults : List StageResult) (aud : AuditState) :
    ∀ r : PipelineResult,
      (runStages agents runId startTime inputHash verbose stages outputs stageResults aud).1 = .ok r →
      ((r.success = false →
          r.outputs = [] ∧ r.failedAt.isSome = true ∧ r.audit.overallStatus = "failed" ∧
          (runStages agents runId startTime inputHash verbose stages outputs stageResults aud).2.savedAudits
            = aud.savedAudits) ∧
       (r.success = true →
          r.audit.overallStatus = "success" ∧
          (runStages agents runId startTime inputHash verbose stages outputs stageResults aud).2.savedAudits
            = aud.savedAudits ++ [r.audit])) := by
  induction stages, outputs, stageResults, aud
    using runStages.induct agents runId startTime inputHash verbose with
  | case1 outputs stageResults aud =>
    intro r h
    injection h with h
    subst h
    exact ⟨fun hf => by simp at hf, fun _ => ⟨rfl, rfl⟩⟩
  | case2 stage rest outputs stageResults aud hmget =>
    intro r h
    simp only [runStages, hmget, Except.ok.injEq] at h ⊢
    subst h
    exact ⟨fun _ => ⟨rfl, rfl, rfl, rfl⟩, fun ht => by simp [buildFailureResult, buildAudit] at ht⟩
  | case3 stage rest outputs stageResults aud agent hmget input context e hres =>
    intro r h
    unfold input context at hres
    simp only [runStages, hmget, hres] at h
    exact Except.noConfusion h
  | case4 stage rest outputs stageResults aud agent hmget input context result hres hfail =>
    intro r h
    unfold input context at hres
    simp only [runStages, hmget, hres, hfail, if_true, Except.ok.injEq] at h ⊢
    subst h
    exact ⟨fun _ => ⟨rfl, rfl, rfl, rfl⟩, fun ht => by simp [buildFailureResult, buildAudit] at ht⟩
  | case5 stage rest outputs stageResults aud agent hmget input context result hres hfail
      outputs1 checks hgc e hgce =>
    intro r h
    unfold input context at hres
    unfold outputs1 at hgce
    simp only [runStages, hmget, hres, hfail, hgc, hgce, Bool.false_eq_true, if_false] at h
    exact Except.noConfusion h
  | case6 stage rest outputs stageResults aud agent hmget input context result hres hfail
      outputs1 checks hgc rs hgcr failures hflen =>
    intro r h
    unfold input context at hres
    unfold outputs1 at hgcr
    unfold failures at hflen
    simp only [runStages, hmget, hres, hfail, hgc, hgcr, hflen, if_true,
      Bool.false_eq_true, if_false, Except.ok.injEq] at h ⊢
    subst h
    exact ⟨fun _ => ⟨rfl, rfl, rfl, rfl⟩, fun ht => by simp [buildFailureResult, buildAudit] at ht⟩
  | case7 stage rest outputs stageResults aud agent hmget startEvent aud1 input context result
      hres stageResult hfail outputs1 checks hgc rs hgcr stageResult1 failures hnflen
      stageEvent aud2 ih =>
    intro r h
    unfold input context at hres
    unfold outputs1 at hgcr
    unfold failures at hnflen
    simp only [runStages, hmget, hres, hfail, hgc, hgcr, hnflen] at h ⊢
    exact ih r h
  | case8 stage rest outputs stageResults aud agent hmget startEvent aud1 input context result
      hres stageResult hfail outputs1 hgc stageEvent aud2 ih =>
    intro r h
    unfold input context at hres
    simp only [runStages, hmget, hres, hfail, hgc] at h ⊢
    exact ih r h

/-- Specialization of `runStages_ok_spec` to `PipelineOrchestrator.run`:
the audit sinks start empty, so a success saves exactly one `RunAudit` and a
failure saves none. -/
theorem pipelineRun_ok_spec (agents : List (String × Agent))
    (stages : List PipelineStage) (runId startTime : String) (input : Value)
    (verbose : Bool) (r : PipelineResult)
    (h : (pipelineRun agents stages runId startTime input verbose).1 = .ok r) :
    (r.success = false →
       r.outputs = [] ∧ r.failedAt.isSome = true ∧ r.audit.overallStatus = "failed" ∧
       (pipelineRun agents stages runId startTime input verbose).2.savedAudits = []) ∧
    (r.success = true →
       r.audit.overallStatus = "success" ∧
       (pipelineRun agents stages runId startTime input verbose).2.savedAudits = [r.audit]) :=
  runStages_ok_spec agents runId startTime (computeHash input) verbose
    (topologicalSort stages) [("input", input)] []
    (logEvent { events := [], savedAudits := [] }
      { runId := runId, level := "info", message := "Pipeline started",
        data := some [("inputHash", .str (computeHash input))] }) r h

/-- Counterexample to C1: in scenario B (`A → B → C` with `B` raising) the
run fails at `"B"`, but the returned artifacts map is empty — it holds
neither the reserved `"input"` entry nor stage `A`'s output, contrary to the
claim. -/
theorem run_fail_fast_counterexample :
    scenarioBRun.1.toOption.map (fun r => (r.success, r.failedAt, r.outputs)) =
      some (false, some "B", []) := rfl

/-- C1 (amended): if the stage at position `k` of the scheduled order fails,
`PipelineOrchestrator.run` returns `success = false` with `failedAt` that
stage's id, but the returned artifacts map is empty (`new Map()`): it
contains no entry at all — not the reserved `"input"` entry, nor the outputs
of the stages completed before `k` (for the 3-stage pipeline `A → B → C`
with `B` raising, the map is empty rather than holding `"input"` and
`"A"`). -/
theorem run_fail_fast_empty_outputs :
    (∀ agents stages runId startTime input verbose r,
      (pipelineRun agents stages runId startTime input verbose).1 = .ok r →
      r.success = false →
      r.outputs = [] ∧ r.failedAt.isSome = true) ∧
    scenarioBRun.1.toOption.map (fun r => (r.success, r.failedAt, mget r.outputs "input",
      mget r.outputs "A")) = some (false, some "B", none, none) := by
  constructor
  · intro agents stages runId startTime input verbose r h hf
    have hs := (pipelineRun_ok_spec agents stages runId startTime input verbose r h).1 hf
    exact ⟨hs.1, hs.2.1⟩
  · rfl

/-- Witness for C1 (amended): the scenario B result, projected through the
theorem. -/
theorem run_fail_fast_empty_outputs_witness :
    scenarioBResult.outputs = [] ∧ scenarioBResult.failedAt.isSome = true :=
  run_fail_fast_empty_outputs.1 scenarioBAgents [stageA, stageB, stageC] "run-1"
    "2026-01-01T00:00:00.000Z" (.obj [("n", .num 1)]) false scenarioBResult rfl rfl

/-- Counterexample to C5: scenario B aborts; the `RunAudit` is built and
returned in the result, but nothing is persisted — the saved-run-summary
sink stays empty instead of receiving one snapshot. -/
theorem run_audit_not_persisted_counterexample :
    scenarioBRun.1.toOption.map (fun r => r.success) = some false ∧
    scenarioBRun.2.savedAudits = [] := ⟨rfl, rfl⟩

/-- C5 (amended): every abort path of `run` produces a complete `RunAudit`
marked `failed` covering the stages executed so far (the failing stage
included), with `failedAt` the failing stage's id or `"<id>:gate"` when a
gate check caused the abort — but the audit is persisted only at a
successful run end; on abort it is returned yet never saved. -/
theorem run_audit_semantics :
    (∀ agents stages runId startTime input verbose r,
      (pipelineRun agents stages runId startTime input verbose).1 = .ok r →
      ((r.success = true →
         r.audit.overallStatus = "success" ∧
         (pipelineRun agents stages runId startTime input verbose).2.savedAudits = [r.audit]) ∧
       (r.success = false →
         r.audit.overallStatus = "failed" ∧ r.failedAt.isSome = true ∧
         (pipelineRun agents stages runId startTime input verbose).2.savedAudits = []))) ∧
    scenarioBRun.1.toOption.map
      (fun r => (r.failedAt, r.audit.overallStatus,
        r.audit.stages.map (fun s => (s.agentId, s.success)))) =
      some (some "B", "failed", [("A", true), ("B", false)]) ∧
    scenarioGateRun.1.toOption.map (fun r => (r.failedAt, r.audit.overallStatus,
        r.audit.stages.map (fun s => (s.agentId, s.success)))) =
      some (some "A:gate", "failed", [("A", true)]) ∧
    scenarioGateRun.2.savedAudits = [] := by
  refine ⟨?_, rfl, rfl, rfl⟩
  intro agents stages runId startTime input verbose r h
  have hs := pipelineRun_ok_spec agents stages runId startTime input verbose r h
  exact ⟨fun ht => (hs.2 ht), fun hf =>
    ⟨(hs.1 hf).2.2.1, (hs.1 hf).2.1, (hs.1 hf).2.2.2⟩⟩

/-- Witness for C5 (amended): on the successful two-stage run, the audit is
marked `success` and saved exactly once. -/
theorem run_audit_semantics_witness :
    scenarioOKResult.audit.overallStatus = "success" ∧
    scenarioOKRun.2.savedAudits = [scenarioOKResult.audit] :=
  (run_audit_semantics.1 twoAgents [stageA, stageB] "run-0"
    "2026-01-01T00:00:00.000Z" (.str "in") false scenarioOKResult rfl).1 rfl

theorem runGateChecksAux_error (ctx : GateContext) :
    ∀ (pre : List GateCheck) (c : GateCheck) (post : List GateCheck)
      (results : List GateCheckResult) (msg : String),
      (∀ c1 ∈ pre, ∃ rs, c1 ctx = .ok rs) →
      c ctx = .error msg →
      runGateChecksAux (pre ++ c :: post) ctx results = .error msg := by
  intro pre
  induction pre with
  | nil =>
    intro c post results msg _ hc
    simp only [List.nil_append, runGateChecksAux, hc]
  | cons hd tl ih =>
    intro c post results msg hpre hc
    obtain ⟨rs, hrs⟩ := hpre hd (List.Mem.head tl)
    simp only [List.cons_append, runGateChecksAux, hrs]
    exact ih c post (results ++ rs) msg (fun c1 h1 => hpre c1 (List.Mem.tail hd h1)) hc

/-- Counterexample to C2: with a raising check attached to stage `A` of the
two-stage pipeline `A → B`, the fault escapes `PipelineOrchestrator.run`
(the run aborts exceptionally) and stage `B` never executes — no audit
event mentions `B`. -/
theorem gate_check_fault_aborts_counterexample :
    scenarioThrowRun.1 = .error "check blew up" ∧
    (scenarioThrowRun.2.events.filter (fun e => e.agentId == some "B")).length = 0 :=
  ⟨rfl, rfl⟩

/-- C2 (amended): a fault raised by a stage-attached gate check is not
caught by the orchestrator: `runGateChecks` invokes checks with no
surrounding try/catch, so the first fault propagates out of it (and hence
out of `run`, aborting the run before any remaining stage executes); in the
concrete run with a raising check on `A`, the run ends exceptionally, stage
`B` never starts and nothing is persisted.  (Only `StudioManager.run`'s
outer catch-all then converts the escaped fault into an overall failure
result.) -/
theorem gate_check_fault_propagates :
    (∀ (pre : List GateCheck) (c : GateCheck) (post : List GateCheck)
        (outputs : List (String × Value)) (msg : String),
      (∀ c1 ∈ pre, ∃ rs, c1 { outputs := outputs } = .ok rs) →
      c { outputs := outputs } = .error msg →
      runGateChecks (pre ++ c :: post) outputs = .error msg) ∧
    (scenarioThrowRun.1 = .error "check blew up" ∧
     scenarioThrowRun.2.events.map (fun e => e.agentId) = [none, some "A"] ∧
     scenarioThrowRun.2.savedAudits = []) := by
  refine ⟨?_, rfl, rfl, rfl⟩
  intro pre c post outputs msg hpre hc
  exact runGateChecksAux_error { outputs := outputs } pre c post [] msg hpre hc

/-- Witness for C2 (amended): a singleton raising check makes
`runGateChecks` propagate the fault. -/
theorem gate_check_fault_propagates_witness :
    runGateChecks [throwingCheck] [] = .error "check blew up" :=
  gate_check_fault_propagates.1 [] throwingCheck [] [] "check blew up"
    (fun c1 h1 => absurd h1 (List.not_mem_nil c1)) rfl

/-!
Correctness of the Kahn scheduler (`topologicalSort`).  The development
follows the loop invariant: popped stages respect their dependencies, queue
members have all dependencies popped, the in-degree table holds each
declared stage's count of not-yet-popped dependencies, no stage is enqueued
twice, and a stage outside queue and popped list still has an unresolved
dependency.
-/

/-- Ids of a stage list, in order. -/
def stageIds (l : List PipelineStage) : List String :=
  l.map (fun s => s.agentId)

/-- Number of dependencies of `t` whose id has not yet been popped (does not
appear in `sorted`). -/
def unresolvedCount (sorted : List PipelineStage) (t : PipelineStage) : Nat :=
  t.dependsOn.countP (fun d => decide (d ∉ stageIds sorted))

/-- The scheduler's output order respects dependencies: each entry's
dependency ids all appear among the ids before it. -/
def DepRespect (order : List PipelineStage) : Prop :=
  ∀ i (hi : i < order.length), ∀ d ∈ (order.get ⟨i, hi⟩).dependsOn,
    d ∈ stageIds (order.take i)

theorem stageIds_append (l1 l2 : List PipelineStage) :
    stageIds (l1 ++ l2) = stageIds l1 ++ stageIds l2 := by
  simp [stageIds]

/-- Members of a stage list with `Nodup` ids that share an id are equal. -/
theorem eq_of_mem_of_agentId_eq {stages : List PipelineStage}
    (hnd : (stageIds stages).Nodup) {s t : PipelineStage}
    (hs : s ∈ stages) (ht : t ∈ stages) (h : s.agentId = t.agentId) : s = t :=
  List.inj_on_of_nodup_map (by simpa [stageIds] using hnd) hs ht h

theorem mget_foldl_mset_not_mem {β : Type} (f : PipelineStage → β) :
    ∀ (stages : List PipelineStage) (m0 : List (String × β)) (k : String),
      k ∉ stageIds stages →
      mget (stages.foldl (fun m s => mset m s.agentId (f s)) m0) k = mget m0 k := by
  intro stages
  induction stages with
  | nil => intro m0 k _; rfl
  | cons s rest ih =>
    intro m0 k hk
    simp only [stageIds, List.map_cons, List.mem_cons] at hk
    push_neg at hk
    simp only [List.foldl_cons]
    rw [ih (mset m0 s.agentId (f s)) k (by simpa [stageIds] using hk.2)]
    rw [mget_mset]
    simp [hk.1.symm]

theorem mget_foldl_mset_mem {β : Type} (f : PipelineStage → β) :
    ∀ (stages : List PipelineStage) (m0 : List (String × β)) (t : PipelineStage),
      (stageIds stages).Nodup → t ∈ stages →
      mget (stages.foldl (fun m s => mset m s.agentId (f s)) m0) t.agentId = some (f t) := by
  intro stages
  induction stages with
  | nil => intro m0 t _ ht; exact absurd ht (List.not_mem_nil t)
  | cons s rest ih =>
    intro m0 t hnd ht
    simp only [List.foldl_cons]
    have hnd2 : (s.agentId :: stageIds rest).Nodup := by
      simpa only [stageIds, List.map_cons] using hnd
    rcases List.mem_cons.mp ht with rfl | ht2
    · rw [mget_foldl_mset_not_mem f rest _ _ (List.nodup_cons.mp hnd2).1, mget_mset]
      simp
    · exact ih (mset m0 s.agentId (f s)) t (List.nodup_cons.mp hnd2).2 ht2

/-- In-degree table content: each declared stage id maps to its declared
dependency count (unique ids assumed, as the data model requires). -/
theorem mget_buildInDegree (stages : List PipelineStage)
    (hnd : (stageIds stages).Nodup) (t : PipelineStage) (ht : t ∈ stages) :
    mget (buildInDegree stages) t.agentId = some ((t.dependsOn.length : Int)) :=
  mget_foldl_mset_mem (fun s => ((s.dependsOn.length : Int))) stages [] t hnd ht

/-- Specification of the adjacency lists: `graph[d]` holds one entry
`s.agentId` per occurrence of `d` in `s.dependsOn`, in declaration order. -/
def dependentsSpec (stages : List PipelineStage) (d : String) : List String :=
  stages.flatMap (fun s => List.replicate (s.dependsOn.count d) s.agentId)

theorem graph_inner_foldl (a : String) :
    ∀ (deps : List String) (g0 : List (String × List String)) (d : String),
      (mget (deps.foldl (fun g1 dep => mset g1 dep (((mget g1 dep).getD []) ++ [a])) g0) d).getD []
        = ((mget g0 d).getD []) ++ List.replicate (deps.count d) a := by
  intro deps
  induction deps with
  | nil => intro g0 d; simp
  | cons dep rest ih =>
    intro g0 d
    simp only [List.foldl_cons]
    rw [ih]
    rw [mget_mset]
    by_cases h : dep = d
    · subst h
      simp [List.count_cons, List.replicate_succ, List.append_assoc]
    · have hne : ¬ d = dep := fun he => h he.symm
      simp [h, hne, List.count_cons]

theorem find?_agentId_self (stages : List PipelineStage)
    (hnd : (stageIds stages).Nodup) (t : PipelineStage) (ht : t ∈ stages) :
    stages.find? (fun s => s.agentId == t.agentId) = some t := by
  induction stages with
  | nil => exact absurd ht (List.not_mem_nil t)
  | cons s rest ih =>
    have hnd2 : (s.agentId :: stageIds rest).Nodup := by
      simpa only [stageIds, List.map_cons] using hnd
    rcases List.mem_cons.mp ht with rfl | ht2
    · exact List.find?_cons_of_pos rest (by simp)
    · have hne : ¬ (s.agentId == t.agentId) = true := by
        simp only [beq_iff_eq]
        intro he
        exact (List.nodup_cons.mp hnd2).1
          (he ▸ (List.mem_map_of_mem (fun s => s.agentId) ht2))
      exact (List.find?_cons_of_neg rest hne).trans (ih (List.nodup_cons.mp hnd2).2 ht2)

theorem count_flatMap_replicate (stages : List PipelineStage)
    (hnd : (stageIds stages).Nodup) (a : String) :
    ∀ (t : PipelineStage), t ∈ stages →
      (dependentsSpec stages a).count t.agentId = t.dependsOn.count a := by
  induction stages with
  | nil => intro t ht; exact absurd ht (List.not_mem_nil t)
  | cons s rest ih =>
    intro t ht
    have hnd2 : (s.agentId :: stageIds rest).Nodup := by
      simpa only [stageIds, List.map_cons] using hnd
    have hcount0 : ∀ u : PipelineStage, u.agentId ∉ stageIds rest →
        (dependentsSpec rest a).count u.agentId = 0 := by
      intro u hu
      rw [List.count_eq_zero]
      intro hmem
      simp only [dependentsSpec, List.mem_flatMap] at hmem
      obtain ⟨w, hw, hrep⟩ := hmem
      have := List.eq_of_mem_replicate hrep
      exact hu (this ▸ (List.mem_map_of_mem (fun s => s.agentId) hw))
    simp only [dependentsSpec, List.flatMap_cons, List.count_append]
    rcases List.mem_cons.mp ht with rfl | ht2
    · rw [List.count_replicate, if_pos (by simp : (t.agentId == t.agentId) = true)]
      have h0 : (dependentsSpec rest a).count t.agentId = 0 :=
        hcount0 t (List.nodup_cons.mp hnd2).1
      simp only [dependentsSpec] at h0
      omega
    · have hne : ¬ (s.agentId == t.agentId) = true := by
        simp only [beq_iff_eq]
        intro he
        exact (List.nodup_cons.mp hnd2).1
          (he.symm ▸ (List.mem_map_of_mem (fun s => s.agentId) ht2))
      rw [List.count_replicate, if_neg hne]
      have hrec := ih (List.nodup_cons.mp hnd2).2 t ht2
      simp only [dependentsSpec] at hrec
      omega

theorem unresolvedCount_append (sorted : List PipelineStage) (stage t : PipelineStage)
    (hnot : stage.agentId ∉ stageIds sorted) :
    unresolvedCount sorted t
      = unresolvedCount (sorted ++ [stage]) t + t.dependsOn.count stage.agentId := by
  unfold unresolvedCount
  induction t.dependsOn with
  | nil => simp
  | cons d rest ih =>
    simp only [List.countP_cons, List.count_cons]
    by_cases hd : d = stage.agentId
    · subst hd
      have h1 : (decide (stage.agentId ∉ stageIds sorted)) = true := by simp [hnot]
      have h2 : (decide (stage.agentId ∉ stageIds (sorted ++ [stage]))) = false := by
        simp [stageIds_append, stageIds]
      rw [h1, h2, if_pos rfl, if_neg (by simp), if_pos (by simp)]
      omega
    · have hsame : (decide (d ∉ stageIds (sorted ++ [stage])))
          = (decide (d ∉ stageIds sorted)) := by
        rw [decide_eq_decide]
        rw [stageIds_append]
        simp [stageIds, hd]
      have hbeq : ¬ (d == stage.agentId) = true := by simpa using hd
      rw [hsame, if_neg hbeq]
      omega

theorem count_le_unresolvedCount (sorted : List PipelineStage) (stage t : PipelineStage)
    (hnot : stage.agentId ∉ stageIds sorted) :
    t.dependsOn.count stage.agentId ≤ unresolvedCount sorted t := by
  unfold unresolvedCount
  rw [List.count_eq_countP]
  refine List.countP_mono_left ?_
  intro d _ hd
  simp only [beq_iff_eq] at hd
  subst hd
  simpa using hnot

theorem unresolvedCount_eq_zero_iff (sorted : List PipelineStage) (t : PipelineStage) :
    unresolvedCount sorted t = 0 ↔ ∀ d ∈ t.dependsOn, d ∈ stageIds sorted := by
  unfold unresolvedCount
  rw [List.countP_eq_zero]
  constructor
  · intro h d hd
    have h2 := h d hd
    simpa using h2
  · intro h d hd
    simpa using h d hd

theorem depRespect_append (sorted : List PipelineStage) (stage : PipelineStage)
    (hdr : DepRespect sorted) (hready : ∀ d ∈ stage.dependsOn, d ∈ stageIds sorted) :
    DepRespect (sorted ++ [stage]) := by
  intro i hi d hd
  rcases Nat.lt_or_ge i sorted.length with hlt | hge
  · have hget : (sorted ++ [stage]).get ⟨i, hi⟩ = sorted.get ⟨i, hlt⟩ := by
      rw [List.get_append _ hlt]
    have htake : (sorted ++ [stage]).take i = sorted.take i := by
      rw [List.take_append_of_le_length (Nat.le_of_lt hlt)]
    rw [htake]
    exact hdr i hlt d (by rwa [hget] at hd)
  · have hlen : i = sorted.length := by
      simp only [List.length_append, List.length_singleton] at hi
      omega
    subst hlen
    have hget : (sorted ++ [stage]).get ⟨sorted.length, hi⟩ = stage := by
      have hg : (sorted ++ [stage])[sorted.length] = stage := by
        rw [List.getElem_append]
        simp
      simpa [List.get_eq_getElem] using hg
    have htake : (sorted ++ [stage]).take sorted.length = sorted := by
      rw [List.take_append_of_le_length (Nat.le_refl _)]
      simp
    rw [htake]
    exact hready d (by rwa [hget] at hd)

/-- Behaviour of one dependent-processing pass: every declared id's
in-degree entry drops by its multiplicity on the processed list, and the
stages appended to the queue are exactly those whose entry was positive
before and reaches zero during the pass — each appended exactly once. -/
theorem processDeps_spec (stages : List PipelineStage)
    (hnd : (stageIds stages).Nodup) :
    ∀ (ds : List String) (queue : List PipelineStage) (m : List (String × Int))
      (v : String → Int),
      (∀ k ∈ ds, ∃ t ∈ stages, t.agentId = k) →
      (∀ t ∈ stages, mget m t.agentId = some (v t.agentId)) →
      (∀ t ∈ stages, mget (processDeps stages ds queue m).2 t.agentId =
        some (v t.agentId - (ds.count t.agentId : Int))) ∧
      ∃ pushed : List PipelineStage,
        (processDeps stages ds queue m).1 = queue ++ pushed ∧
        (∀ t : PipelineStage,
          t ∈ pushed ↔ t ∈ stages ∧ 0 < v t.agentId ∧
            v t.agentId ≤ (ds.count t.agentId : Int)) ∧
        (stageIds pushed).Nodup := by
  intro ds
  induction ds with
  | nil =>
    intro queue m v _ hm
    refine ⟨fun t ht => by simpa using hm t ht, [], by simp [processDeps], ?_, by simp [stageIds]⟩
    intro t
    simp only [List.not_mem_nil, false_iff, List.count_nil, Nat.cast_zero]
    rintro ⟨_, h1, h2⟩
    omega
  | cons depId rest ih =>
    intro queue m v hds hm
    obtain ⟨t0, ht0, ht0id⟩ := hds depId (List.Mem.head rest)
    have hget : mget m depId = some (v depId) := by
      have hh := hm t0 ht0
      rwa [ht0id] at hh
    have hfind : stages.find? (fun s => s.agentId == depId) = some t0 := by
      rw [← ht0id]
      exact find?_agentId_self stages hnd t0 ht0
    have hds2 : ∀ k ∈ rest, ∃ t ∈ stages, t.agentId = k :=
      fun k hk => hds k (List.Mem.tail depId hk)
    have hm2 : ∀ t ∈ stages, mget (mset m depId (v depId - 1)) t.agentId =
        some (if t.agentId = depId then v t.agentId - 1 else v t.agentId) := by
      intro t ht
      rw [mget_mset]
      by_cases hid : depId = t.agentId
      · rw [if_pos hid, if_pos hid.symm, hid]
      · rw [if_neg hid, if_neg (fun he => hid he.symm)]
        exact hm t ht
    have hIH := ih queue (mset m depId (v depId - 1))
      (fun k => if k = depId then v k - 1 else v k) hds2 hm2
    have hIHq := ih (queue ++ [t0]) (mset m depId (v depId - 1))
      (fun k => if k = depId then v k - 1 else v k) hds2 hm2
    dsimp only at hIH hIHq
    by_cases hdeg : v depId - 1 = 0
    · have hstep : processDeps stages (depId :: rest) queue m =
          processDeps stages rest (queue ++ [t0]) (mset m depId (v depId - 1)) := by
        simp only [processDeps, hget, Option.getD_some, hfind, if_pos hdeg]
      rw [hstep]
      obtain ⟨hmpart, pushed, hq, hmem, hnodup⟩ := hIHq
      constructor
      · intro t ht
        rw [hmpart t ht]
        congr 1
        by_cases hid : t.agentId = depId
        · rw [if_pos hid, hid, List.count_cons]
          simp only [beq_self_eq_true, if_pos]
          push_cast
          omega
        · rw [if_neg hid, List.count_cons,
            if_neg (fun he : (depId == t.agentId) = true => hid (beq_iff_eq.mp he).symm)]
          simp
      · refine ⟨t0 :: pushed, by rw [hq]; simp, ?_, ?_⟩
        · intro t
          constructor
          · intro hmem2
            rcases List.mem_cons.mp hmem2 with rfl | hmem3
            · refine ⟨ht0, ?_, ?_⟩
              · rw [ht0id]; omega
              · rw [ht0id, List.count_cons]
                simp only [beq_self_eq_true, if_pos]
                push_cast
                omega
            · obtain ⟨hts, h1, h2⟩ := (hmem t).mp hmem3
              by_cases hid : t.agentId = depId
              · exfalso
                have ht0eq : t = t0 := eq_of_mem_of_agentId_eq hnd hts ht0 (hid.trans ht0id.symm)
                subst ht0eq
                rw [if_pos hid] at h1
                rw [hid] at h1
                omega
              · rw [if_neg hid] at h1 h2
                refine ⟨hts, h1, ?_⟩
                rw [List.count_cons,
                  if_neg (fun he : (depId == t.agentId) = true => hid (beq_iff_eq.mp he).symm)]
                exact h2
          · rintro ⟨hts, h1, h2⟩
            by_cases hid : t.agentId = depId
            · have ht0eq : t = t0 := eq_of_mem_of_agentId_eq hnd hts ht0 (hid.trans ht0id.symm)
              exact ht0eq ▸ List.Mem.head pushed
            · refine List.Mem.tail t0 ((hmem t).mpr ⟨hts, ?_, ?_⟩)
              · rwa [if_neg hid]
              · rw [if_neg hid]
                rwa [List.count_cons,
                  if_neg (fun he : (depId == t.agentId) = true => hid (beq_iff_eq.mp he).symm)] at h2
        · have ht0not : t0.agentId ∉ stageIds pushed := by
            intro hmem2
            simp only [stageIds, List.mem_map] at hmem2
            obtain ⟨u, hu, huid⟩ := hmem2
            obtain ⟨hus, h1, _⟩ := (hmem u).mp hu
            have hueq : u = t0 := eq_of_mem_of_agentId_eq hnd hus ht0 huid
            subst hueq
            rw [if_pos (huid.trans ht0id), huid.trans ht0id] at h1
            omega
          simpa only [stageIds, List.map_cons] using List.nodup_cons.mpr ⟨ht0not, hnodup⟩
    · have hstep : processDeps stages (depId :: rest) queue m =
          processDeps stages rest queue (mset m depId (v depId - 1)) := by
        simp only [processDeps, hget, Option.getD_some, hfind, if_neg hdeg]
      rw [hstep]
      obtain ⟨hmpart, pushed, hq, hmem, hnodup⟩ := hIH
      constructor
      · intro t ht
        rw [hmpart t ht]
        congr 1
        by_cases hid : t.agentId = depId
        · rw [if_pos hid, hid, List.count_cons]
          simp only [beq_self_eq_true, if_pos]
          push_cast
          omega
        · rw [if_neg hid, List.count_cons,
            if_neg (fun he : (depId == t.agentId) = true => hid (beq_iff_eq.mp he).symm)]
          simp
      · refine ⟨pushed, hq, ?_, hnodup⟩
        intro t
        rw [hmem t]
        by_cases hid : t.agentId = depId
        · rw [if_pos hid, hid, List.count_cons]
          simp only [beq_self_eq_true, if_pos]
          constructor
          · rintro ⟨hts, h1, h2⟩
            refine ⟨hts, by omega, ?_⟩
            push_cast
            omega
          · rintro ⟨hts, h1, h2⟩
            refine ⟨hts, ?_, ?_⟩
            · push_cast at h2
              omega
            · push_cast at h2
              omega
        · rw [if_neg hid, List.count_cons,
            if_neg (fun he : (depId == t.agentId) = true => hid (beq_iff_eq.mp he).symm)]
          simp

/-- A member of a dependency-respecting list has no unresolved
dependency. -/
theorem depRespect_member_resolved (sorted : List PipelineStage)
    (hdr : DepRespect sorted) (u : PipelineStage) (hu : u ∈ sorted) :
    unresolvedCount sorted u = 0 := by
  rw [unresolvedCount_eq_zero_iff]
  obtain ⟨⟨i, hi⟩, hgi⟩ := List.mem_iff_get.mp hu
  intro d hd
  have h2 := hdr i hi d (by rw [hgi]; exact hd)
  simp only [stageIds, List.mem_map] at h2 ⊢
  obtain ⟨s, hs, hsid⟩ := h2
  exact ⟨s, List.take_subset i sorted hs, hsid⟩

theorem mget_buildGraph (stages : List PipelineStage) (d : String) :
    (mget (buildGraph stages) d).getD [] = dependentsSpec stages d := by
  suffices h : ∀ (g0 : List (String × List String)),
      (mget (stages.foldl (fun g stage =>
        stage.dependsOn.foldl (fun g1 dep =>
          mset g1 dep (((mget g1 dep).getD []) ++ [stage.agentId])) g) g0) d).getD []
        = ((mget g0 d).getD []) ++ dependentsSpec stages d by
    simpa using h []
  induction stages with
  | nil => intro g0; simp [dependentsSpec]
  | cons s rest ih =>
    intro g0
    simp only [List.foldl_cons]
    rw [ih]
    rw [graph_inner_foldl]
    simp [dependentsSpec, List.append_assoc]

/-- Loop invariant of the Kahn scheduler: popped stages respect their
dependencies, queued stages are ready, the in-degree table holds each
stage's unresolved-dependency count, no stage occurs twice, and a stage
outside queue and popped list still has an unresolved dependency. -/
structure KahnInv (stages queue sorted : List PipelineStage)
    (m : List (String × Int)) : Prop where
  sub : ∀ t ∈ sorted ++ queue, t ∈ stages
  nodup : (stageIds (sorted ++ queue)).Nodup
  deg : ∀ t ∈ stages, mget m t.agentId = some ((unresolvedCount sorted t : Int))
  ready : ∀ t ∈ queue, ∀ d ∈ t.dependsOn, d ∈ stageIds sorted
  ordered : DepRespect sorted
  complete : ∀ t ∈ stages, t ∉ sorted ++ queue → 0 < unresolvedCount sorted t

/-- One iteration of the Kahn loop preserves the invariant. -/
theorem kahnStep (stages : List PipelineStage) (hnd : (stageIds stages).Nodup)
    (stage : PipelineStage) (queue sorted : List PipelineStage)
    (m : List (String × Int))
    (inv : KahnInv stages (stage :: queue) sorted m) :
    KahnInv stages
      (processDeps stages ((mget (buildGraph stages) stage.agentId).getD []) queue m).1
      (sorted ++ [stage])
      (processDeps stages ((mget (buildGraph stages) stage.agentId).getD []) queue m).2 := by
  have hds_spec : (mget (buildGraph stages) stage.agentId).getD []
      = dependentsSpec stages stage.agentId := mget_buildGraph stages stage.agentId
  have hstage_mem : stage ∈ stages := inv.sub stage (by simp)
  have hstage_not : stage.agentId ∉ stageIds sorted := by
    intro hmem
    have hnd2 := inv.nodup
    rw [stageIds_append] at hnd2
    exact (List.nodup_append.mp hnd2).2.2 hmem (by simp [stageIds])
  have hready_head := inv.ready stage (List.Mem.head queue)
  have hv : ∀ t ∈ stages, mget m t.agentId = some
      ((fun k => match stages.find? (fun s => s.agentId == k) with
        | some u => ((unresolvedCount sorted u : Int))
        | none => 0) t.agentId) := by
    intro t ht
    have hf := find?_agentId_self stages hnd t ht
    rw [inv.deg t ht]
    simp only [hf]
  have hveq : ∀ t ∈ stages,
      (match stages.find? (fun s => s.agentId == t.agentId) with
        | some u => ((unresolvedCount sorted u : Int))
        | none => 0) = ((unresolvedCount sorted t : Int)) := by
    intro t ht
    rw [find?_agentId_self stages hnd t ht]
  have hdecl_ds : ∀ k ∈ (mget (buildGraph stages) stage.agentId).getD [],
      ∃ t ∈ stages, t.agentId = k := by
    intro k hk
    rw [hds_spec] at hk
    simp only [dependentsSpec, List.mem_flatMap] at hk
    obtain ⟨s, hs, hrep⟩ := hk
    exact ⟨s, hs, (List.eq_of_mem_replicate hrep).symm⟩
  obtain ⟨hmp, pushed, hq1, hmem, hpnodup⟩ :=
    processDeps_spec stages hnd ((mget (buildGraph stages) stage.agentId).getD []) queue m
      (fun k => match stages.find? (fun s => s.agentId == k) with
        | some u => ((unresolvedCount sorted u : Int))
        | none => 0) hdecl_ds hv
  have hcount : ∀ t ∈ stages,
      ((mget (buildGraph stages) stage.agentId).getD []).count t.agentId
        = t.dependsOn.count stage.agentId := by
    intro t ht
    rw [hds_spec]
    exact count_flatMap_replicate stages hnd stage.agentId t ht
  have happ : ∀ t : PipelineStage, unresolvedCount sorted t
      = unresolvedCount (sorted ++ [stage]) t + t.dependsOn.count stage.agentId :=
    fun t => unresolvedCount_append sorted stage t hstage_not
  have hmem2 : ∀ t : PipelineStage, t ∈ pushed ↔
      t ∈ stages ∧ 0 < unresolvedCount sorted t ∧
        unresolvedCount (sorted ++ [stage]) t = 0 := by
    intro t
    rw [hmem t]
    constructor
    · rintro ⟨hts, h1, h2⟩
      rw [hveq t hts] at h1 h2
      rw [hcount t hts] at h2
      have h3 := happ t
      refine ⟨hts, by exact_mod_cast h1, ?_⟩
      push_cast at h1 h2
      omega
    · rintro ⟨hts, h1, h2⟩
      rw [hveq t hts, hcount t hts]
      have h3 := happ t
      refine ⟨hts, by exact_mod_cast h1, ?_⟩
      push_cast
      omega
  have hpushed_sub : ∀ t ∈ pushed, t ∈ stages := fun t ht => ((hmem2 t).mp ht).1
  rw [hq1]
  refine { sub := ?_, nodup := ?_, deg := ?_, ready := ?_, ordered := ?_, complete := ?_ }
  · intro t ht
    simp only [List.append_assoc, List.mem_append, List.mem_singleton] at ht
    rcases ht with hs | hs | hq | hp
    · exact inv.sub t (List.mem_append_left _ hs)
    · exact hs ▸ hstage_mem
    · exact inv.sub t (List.mem_append_right _ (List.Mem.tail stage hq))
    · exact hpushed_sub t hp
  · have hrearr : (sorted ++ [stage]) ++ (queue ++ pushed)
        = (sorted ++ stage :: queue) ++ pushed := by
      simp
    rw [hrearr, stageIds_append]
    rw [List.nodup_append]
    refine ⟨inv.nodup, hpnodup, ?_⟩
    intro a ha hb
    simp only [stageIds, List.mem_map] at ha hb
    obtain ⟨w, hw, hwid⟩ := ha
    obtain ⟨u, hu, huid⟩ := hb
    obtain ⟨hus, hupos, _⟩ := (hmem2 u).mp hu
    have hweq : w = u := eq_of_mem_of_agentId_eq hnd
      (inv.sub w hw) hus (hwid.trans huid.symm)
    subst hweq
    rcases List.mem_append.mp hw with hws | hwq
    · rw [depRespect_member_resolved sorted inv.ordered w hws] at hupos
      omega
    · have hzero : unresolvedCount sorted w = 0 :=
        unresolvedCount_eq_zero_iff sorted w |>.mpr (inv.ready w hwq)
      rw [hzero] at hupos
      omega
  · intro t ht
    rw [hmp t ht]
    congr 1
    rw [hveq t ht, hcount t ht]
    have h3 := happ t
    push_cast
    omega
  · intro t htq d hd
    rcases List.mem_append.mp htq with hq2 | hp
    · have := inv.ready t (List.Mem.tail stage hq2) d hd
      rw [stageIds_append]
      exact List.mem_append_left _ this
    · have hzero := ((hmem2 t).mp hp).2.2
      exact (unresolvedCount_eq_zero_iff _ t).mp hzero d hd
  · exact depRespect_append sorted stage inv.ordered hready_head
  · intro t ht hnot
    by_contra hle
    have hzero : unresolvedCount (sorted ++ [stage]) t = 0 := by omega
    by_cases hold : 0 < unresolvedCount sorted t
    · exact hnot (by
        have : t ∈ pushed := (hmem2 t).mpr ⟨ht, hold, hzero⟩
        simp only [List.append_assoc, List.mem_append, List.mem_singleton]
        exact Or.inr (Or.inr (Or.inr this)))
    · have hin : t ∈ sorted ++ stage :: queue := by
        by_contra hnin
        exact hold (inv.complete t ht hnin)
      apply hnot
      simp only [List.append_assoc, List.mem_append, List.mem_singleton]
      rcases List.mem_append.mp hin with hs | hsq
      · exact Or.inl hs
      · rcases List.mem_cons.mp hsq with he | hq2
        · exact Or.inr (Or.inl he)
        · exact Or.inr (Or.inr (Or.inl hq2))

/-- The loop maintains the invariant; moreover either the final queue is
empty or exactly `fuel` stages were popped. -/
theorem sortLoop_spec (stages : List PipelineStage) (hnd : (stageIds stages).Nodup) :
    ∀ (fuel : Nat) (queue sorted : List PipelineStage) (m : List (String × Int)),
      KahnInv stages queue sorted m →
      KahnInv stages (sortLoop stages (buildGraph stages) fuel queue m sorted).2.1
        (sortLoop stages (buildGraph stages) fuel queue m sorted).1
        (sortLoop stages (buildGraph stages) fuel queue m sorted).2.2 ∧
      ((sortLoop stages (buildGraph stages) fuel queue m sorted).2.1 = [] ∨
        (sortLoop stages (buildGraph stages) fuel queue m sorted).1.length
          = sorted.length + fuel) := by
  intro fuel
  induction fuel with
  | zero =>
    intro queue sorted m inv
    cases queue with
    | nil => exact ⟨inv, Or.inl rfl⟩
    | cons s q => exact ⟨inv, Or.inr (by simp [sortLoop])⟩
  | succ fuel ihf =>
    intro queue sorted m inv
    cases queue with
    | nil => exact ⟨inv, Or.inl rfl⟩
    | cons stage queue2 =>
      have hstep := kahnStep stages hnd stage queue2 sorted m inv
      have hrec := ihf
        (processDeps stages ((mget (buildGraph stages) stage.agentId).getD []) queue2 m).1
        (sorted ++ [stage])
        (processDeps stages ((mget (buildGraph stages) stage.agentId).getD []) queue2 m).2
        hstep
      refine ⟨hrec.1, ?_⟩
      rcases hrec.2 with h | h
      · exact Or.inl h
      · right
        rw [show (sortLoop stages (buildGraph stages) (fuel + 1) (stage :: queue2) m sorted)
            = sortLoop stages (buildGraph stages) fuel
                (processDeps stages
                  ((mget (buildGraph stages) stage.agentId).getD []) queue2 m).1
                (processDeps stages
                  ((mget (buildGraph stages) stage.agentId).getD []) queue2 m).2
                (sorted ++ [stage]) from rfl]
        rw [h]
        simp only [List.length_append, List.length_singleton]
        omega

/-- The invariant holds at loop entry. -/
theorem kahnInit (stages : List PipelineStage) (hnd : (stageIds stages).Nodup) :
    KahnInv stages (stages.filter (fun s => s.dependsOn.length == 0)) []
      (buildInDegree stages) := by
  have hresolved : ∀ t : PipelineStage, unresolvedCount [] t = t.dependsOn.length := by
    intro t
    unfold unresolvedCount
    rw [List.countP_eq_length]
    intro a _
    simp [stageIds]
  refine { sub := ?_, nodup := ?_, deg := ?_, ready := ?_, ordered := ?_, complete := ?_ }
  · intro t ht
    simp only [List.nil_append] at ht
    exact List.mem_of_mem_filter ht
  · simp only [List.nil_append]
    have hsl : (stageIds (stages.filter (fun s => s.dependsOn.length == 0))).Sublist
        (stageIds stages) := by
      simp only [stageIds]
      exact (List.filter_sublist stages).map (fun s => s.agentId)
    exact hnd.sublist hsl
  · intro t ht
    rw [mget_buildInDegree stages hnd t ht, hresolved t]
  · intro t ht d hd
    have hpred := List.of_mem_filter ht
    simp only [beq_iff_eq, List.length_eq_zero] at hpred
    rw [hpred] at hd
    exact absurd hd (List.not_mem_nil d)
  · intro i hi
    simp at hi
  · intro t ht hnot
    simp only [List.nil_append] at hnot
    rw [hresolved t]
    by_contra hle
    have hlen : t.dependsOn.length = 0 := by omega
    exact hnot (List.mem_filter.mpr ⟨ht, by simp [hlen]⟩)

/-- The full loop state of `topologicalSort stages`. -/
def sortFinal (stages : List PipelineStage) :
    List PipelineStage × List PipelineStage × List (String × Int) :=
  sortLoop stages (buildGraph stages) (2 * stages.length + 1)
    (stages.filter (fun s => s.dependsOn.length == 0)) (buildInDegree stages) []

theorem topologicalSort_eq_sortFinal (stages : List PipelineStage) :
    topologicalSort stages = (sortFinal stages).1 := rfl

/-- With unique stage ids, the loop always drains its queue: the final state
satisfies the invariant with an empty queue. -/
theorem sortFinal_spec (stages : List PipelineStage) (hnd : (stageIds stages).Nodup) :
    KahnInv stages [] (sortFinal stages).1 (sortFinal stages).2.2 ∧
      (sortFinal stages).2.1 = [] := by
  have h := sortLoop_spec stages hnd (2 * stages.length + 1)
    (stages.filter (fun s => s.dependsOn.length == 0)) [] (buildInDegree stages)
    (kahnInit stages hnd)
  have hempty : (sortFinal stages).2.1 = [] := by
    rcases h.2 with he | hlen
    · exact he
    · exfalso
      have hsub : ∀ t ∈ (sortFinal stages).1, t ∈ stages := fun t ht =>
        h.1.sub t (List.mem_append_left _ ht)
      have hnd2 : (stageIds (sortFinal stages).1).Nodup := by
        have := h.1.nodup
        rw [stageIds_append] at this
        exact (List.nodup_append.mp this).1
      have hsubids : stageIds (sortFinal stages).1 ⊆ stageIds stages := by
        intro a ha
        simp only [stageIds, List.mem_map] at ha ⊢
        obtain ⟨s, hs, hid⟩ := ha
        exact ⟨s, hsub s hs, hid⟩
      have hle : (stageIds (sortFinal stages).1).length ≤ (stageIds stages).length := by
        calc (stageIds (sortFinal stages).1).length
            = (stageIds (sortFinal stages).1).toFinset.card :=
              (List.toFinset_card_of_nodup hnd2).symm
          _ ≤ (stageIds stages).toFinset.card :=
              Finset.card_le_card (fun a ha =>
                List.mem_toFinset.mpr (hsubids (List.mem_toFinset.mp ha)))
          _ ≤ (stageIds stages).length := (stageIds stages).toFinset_card_le
      have hlen1 : (stageIds (sortFinal stages).1).length = (sortFinal stages).1.length := by
        simp [stageIds]
      have hlen2 : (stageIds stages).length = stages.length := by
        simp [stageIds]
      have hlen3 : (sortFinal stages).1.length = 0 + (2 * stages.length + 1) := hlen
      rw [hlen1, hlen2, hlen3] at hle
      omega
  exact ⟨hempty ▸ h.1, hempty⟩

/-- With unique ids, declared dependencies and no cycle (witnessed by a rank
function decreasing along dependency edges), every stage ends up in the
scheduler's output. -/
theorem sortFinal_complete (stages : List PipelineStage)
    (rank : String → Nat)
    (hnd : (stageIds stages).Nodup)
    (hdecl : ∀ t ∈ stages, ∀ d ∈ t.dependsOn, ∃ u ∈ stages, u.agentId = d)
    (hrank : ∀ t ∈ stages, ∀ d ∈ t.dependsOn, rank d < rank t.agentId) :
    ∀ t ∈ stages, t ∈ (sortFinal stages).1 := by
  obtain ⟨inv, _⟩ := sortFinal_spec stages hnd
  suffices h : ∀ n, ∀ t, t ∈ stages → rank t.agentId < n → t ∈ (sortFinal stages).1 by
    intro t ht
    exact h (rank t.agentId + 1) t ht (Nat.lt_succ_self _)
  intro n
  induction n with
  | zero => intro t _ hlt; omega
  | succ n ihn =>
    intro t ht hlt
    by_contra hnot
    have hnotall : t ∉ (sortFinal stages).1 ++ [] := by simpa using hnot
    have hpos := inv.complete t ht hnotall
    have hex : ∃ d ∈ t.dependsOn, d ∉ stageIds (sortFinal stages).1 := by
      by_contra hall
      push_neg at hall
      rw [(unresolvedCount_eq_zero_iff _ t).mpr hall] at hpos
      omega
    obtain ⟨d, hd, hdnot⟩ := hex
    obtain ⟨u, hu, huid⟩ := hdecl t ht d hd
    have hu_not : u ∉ (sortFinal stages).1 := fun hmem =>
      hdnot (huid ▸ List.mem_map_of_mem (fun s => s.agentId) hmem)
    have hrank_u : rank u.agentId < n := by
      have hlt2 := hrank t ht d hd
      rw [huid]
      omega
    exact hu_not (ihn u hu hrank_u)

/-- Counterexample to C3: on the two-stage cyclic configuration
`X depends on Y, Y depends on X`, `topologicalSort` silently returns the
empty order (length 0, not the stage count 2) — it is a total function
returning a plain list and surfaces no configuration defect. -/
theorem topologicalSort_cycle_counterexample :
    topologicalSort [{ agentId := "X", dependsOn := ["Y"] },
                     { agentId := "Y", dependsOn := ["X"] }] = [] ∧
    ([{ agentId := "X", dependsOn := ["Y"] },
      { agentId := "Y", dependsOn := ["X"] }] : List PipelineStage).length = 2 :=
  ⟨rfl, rfl⟩

/-- C3 (amended): `topologicalSort` never surfaces a configuration defect —
it totally returns a plain list, and on a cycle or dangling dependency that
list is silently shorter than the stage count; the length equals the stage
count exactly on well-formed configurations: unique stage ids, every
`dependsOn` id declared, and no cycle (rank function decreasing along
dependency edges). -/
theorem topologicalSort_length_complete (stages : List PipelineStage)
    (rank : String → Nat)
    (hnd : (stageIds stages).Nodup)
    (hdecl : ∀ t ∈ stages, ∀ d ∈ t.dependsOn, ∃ u ∈ stages, u.agentId = d)
    (hrank : ∀ t ∈ stages, ∀ d ∈ t.dependsOn, rank d < rank t.agentId) :
    (topologicalSort stages).length = stages.length := by
  rw [topologicalSort_eq_sortFinal]
  obtain ⟨inv, _⟩ := sortFinal_spec stages hnd
  have hsub : ∀ t ∈ (sortFinal stages).1, t ∈ stages := fun t ht =>
    inv.sub t (List.mem_append_left _ ht)
  have hall := sortFinal_complete stages rank hnd hdecl hrank
  have hnd2 : (stageIds (sortFinal stages).1).Nodup := by
    have hx := inv.nodup
    rw [stageIds_append] at hx
    exact (List.nodup_append.mp hx).1
  have hseteq : (stageIds (sortFinal stages).1).toFinset = (stageIds stages).toFinset := by
    apply Finset.Subset.antisymm
    · intro a ha
      rw [List.mem_toFinset] at ha ⊢
      simp only [stageIds, List.mem_map] at ha ⊢
      obtain ⟨s, hs, hid⟩ := ha
      exact ⟨s, hsub s hs, hid⟩
    · intro a ha
      rw [List.mem_toFinset] at ha ⊢
      simp only [stageIds, List.mem_map] at ha ⊢
      obtain ⟨s, hs, hid⟩ := ha
      exact ⟨s, hall s hs, hid⟩
  have hlen : (stageIds (sortFinal stages).1).length = (stageIds stages).length := by
    rw [← List.toFinset_card_of_nodup hnd2, ← List.toFinset_card_of_nodup hnd, hseteq]
  simpa [stageIds] using hlen

/-- C9: for a stage list with unique ids, no cycle (rank function) and every
`dependsOn` id declared, every stage appears in the order returned by
`topologicalSort`, and each entry's dependency ids all occur among the ids
placed before it. -/
theorem topologicalSort_topological_validity (stages : List PipelineStage)
    (rank : String → Nat)
    (hnd : (stageIds stages).Nodup)
    (hdecl : ∀ t ∈ stages, ∀ d ∈ t.dependsOn, ∃ u ∈ stages, u.agentId = d)
    (hrank : ∀ t ∈ stages, ∀ d ∈ t.dependsOn, rank d < rank t.agentId) :
    (∀ t ∈ stages, t ∈ topologicalSort stages) ∧
    ∀ i (hi : i < (topologicalSort stages).length),
      ∀ d ∈ ((topologicalSort stages).get ⟨i, hi⟩).dependsOn,
        d ∈ stageIds ((topologicalSort stages).take i) := by
  obtain ⟨inv, _⟩ := sortFinal_spec stages hnd
  constructor
  · intro t ht
    rw [topologicalSort_eq_sortFinal]
    exact sortFinal_complete stages rank hnd hdecl hrank t ht
  · intro i hi d hd
    exact inv.ordered i hi d hd

/-- The static pipeline definition (`AGENT_PIPELINE` in
`agents/registry.ts`), with the library gate checks attached as declared. -/
def AGENT_PIPELINE : List PipelineStage :=
  [{ agentId := "requirements-structurer", dependsOn := [] },
   { agentId := "domain-model", dependsOn := ["requirements-structurer"] },
   { agentId := "system-architect",
     dependsOn := ["requirements-structurer", "domain-model"],
     gateChecks := some [pureCheck componentDomainAlignmentCheck,
                         pureCheck adrCompletenessCheck] },
   { agentId := "api-contract",
     dependsOn := ["requirements-structurer", "system-architect", "domain-model"],
     gateChecks := some [pureCheck apiUseCaseCoverageCheck] },
   { agentId := "prompt-pack-designer",
     dependsOn := ["requirements-structurer"],
     gateChecks := some [pureCheck promptCoverageCheck] },
   { agentId := "scaffold-builder",
     dependsOn := ["requirements-structurer", "domain-model", "api-contract",
                   "system-architect"],
     gateChecks := some [pureCheck scaffoldIntegrityCheck] },
   { agentId := "reviewer-verifier",
     dependsOn := ["scaffold-builder", "prompt-pack-designer"] }]

/-- A rank function witnessing that the static pipeline is acyclic. -/
def pipelineRank (k : String) : Nat :=
  (mget [("requirements-structurer", 0), ("domain-model", 1), ("system-architect", 2),
         ("api-contract", 3), ("prompt-pack-designer", 4), ("scaffold-builder", 5),
         ("reviewer-verifier", 6)] k).getD 0

/-- Witness for C3 (amended): on the repository's static pipeline the
scheduler returns an order of full length. -/
theorem topologicalSort_length_complete_witness :
    (topologicalSort AGENT_PIPELINE).length = AGENT_PIPELINE.length :=
  topologicalSort_length_complete AGENT_PIPELINE pipelineRank (by decide)
    (by decide) (by decide)

/-- Witness for C9: on the repository's static pipeline every stage appears
in the scheduled order and each stage follows all of its dependencies. -/
theorem topologicalSort_topological_validity_witness :
    (∀ t ∈ AGENT_PIPELINE, t ∈ topologicalSort AGENT_PIPELINE) ∧
    ∀ i (hi : i < (topologicalSort AGENT_PIPELINE).length),
      ∀ d ∈ ((topologicalSort AGENT_PIPELINE).get ⟨i, hi⟩).dependsOn,
        d ∈ stageIds ((topologicalSort AGENT_PIPELINE).take i) :=
  topologicalSort_topological_validity AGENT_PIPELINE pipelineRank (by decide)
    (by decide) (by decide)

/-!
Model of `RequirementsStructurerAgent` (`agents/requirements_structurer.ts`),
the zero-dependency stage; its `execute` builds the design brief, embedding
an id derived from the per-run `runId` and the run timestamp.
-/

/-- JavaScript `line.replace(/^[-*]\s*/, '')`: drop one leading bullet
character and the whitespace after it. -/
def stripBullet (line : String) : String :=
  match line.data with
  | c :: rest => if c = '-' ∨ c = '*' then ⟨rest.dropWhile jsIsSpace⟩ else line
  | [] => line

/-- Line filter used by the section parsers:
`line.trim() && !line.startsWith('#')`. -/
def sectionLineOk (line : String) : Bool :=
  (strTrim line ≠ "") && !(strStarts line "#")

/-- Goal priority by running index:
`goalIndex <= 3 ? 'must' : goalIndex <= 6 ? 'should' : 'could'`. -/
def goalPriority (goalIndex : Nat) : String :=
  if goalIndex ≤ 3 then "must" else if goalIndex ≤ 6 then "should" else "could"

/-- One structured goal record. -/
def mkGoal (goalIndex : Nat) (description : Value) (priority : String) : Value :=
  .obj [("id", .str ("G-" ++ strPadStart (toString goalIndex) 3 '0')),
        ("description", description),
        ("priority", .str priority),
        ("category", .str "functional")]

/-- Goals parsed from the `requirements` array. -/
def goalsFromRequirements : List Value → Nat → List Value
  | [], _ => []
  | req :: rest, idx =>
    mkGoal idx req (goalPriority idx) :: goalsFromRequirements rest (idx + 1)

/-- Goals parsed from the `sections.goals` text. -/
def goalsFromSections : List String → Nat → List Value
  | [], _ => []
  | line :: rest, idx =>
    let cleaned := strTrim (stripBullet line)
    if cleaned.data.length > 5 then
      mkGoal idx (.str cleaned) "must" :: goalsFromSections rest (idx + 1)
    else
      goalsFromSections rest idx

/-- Model of `RequirementsStructurerAgent.extractGoals`. -/
def extractGoals (spec : Value) : List Value :=
  let requirementsV := getField spec "requirements"
  let fromReqs :=
    if truthy requirementsV && jsLenPos requirementsV then
      goalsFromRequirements (asArr requirementsV) 1
    else []
  let goalsSection := getField (getField spec "sections") "goals"
  let fromSections :=
    if truthy goalsSection then
      goalsFromSections ((strSplit (asStr goalsSection) "\n").filter sectionLineOk)
        (fromReqs.length + 1)
    else []
  let goals := fromReqs ++ fromSections
  if goals.length = 0 then
    [.obj [("id", .str "G-001"),
           ("description", .str ("Implement " ++ jsToString (getField spec "projectName"))),
           ("priority", .str "must"),
           ("category", .str "functional")]]
  else goals

/-- One structured use-case record. -/
def mkUseCase (idx : Nat) (actor action : String) : Value :=
  .obj [("id", .str ("UC-" ++ strPadStart (toString idx) 3 '0')),
        ("actor", .str actor),
        ("action", .str action),
        ("outcome", .str ("Successfully " ++ strLower action))]

/-- Use cases parsed from the `sections.useCases` lines (`X can Y` form). -/
def useCasesFromLines : List String → Nat → List Value
  | [], _ => []
  | line :: rest, idx =>
    let cleaned := strTrim (stripBullet line)
    if cleaned.data.length > 10 then
      let parts := strSplit cleaned " can "
      let actor := if strTrim (parts.headD "") = "" then "User" else strTrim (parts.headD "")
      let actionPart :=
        match parts.get? 1 with
        | some p => if p = "" then cleaned else p
        | none => cleaned
      mkUseCase idx actor actionPart :: useCasesFromLines rest (idx + 1)
    else
      useCasesFromLines rest idx

/-- The default use cases pushed when none were parsed. -/
def defaultUseCases : List Value :=
  [.obj [("id", .str "UC-001"), ("actor", .str "User"),
         ("action", .str "access the system"),
         ("outcome", .str "Successfully authenticated and authorized")],
   .obj [("id", .str "UC-002"), ("actor", .str "User"),
         ("action", .str "view main dashboard"),
         ("outcome", .str "Dashboard displays relevant information")]]

/-- Model of `RequirementsStructurerAgent.extractUseCases`. -/
def extractUseCases (spec : Value) : List Value :=
  let ucSection := getField (getField spec "sections") "useCases"
  let ucs :=
    if truthy ucSection then
      useCasesFromLines ((strSplit (asStr ucSection) "\n").filter sectionLineOk) 1
    else []
  if ucs.length = 0 then defaultUseCases else ucs

/-- One structured constraint record. -/
def mkConstraint (idx : Nat) (description : String) : Value :=
  .obj [("id", .str ("C-" ++ strPadStart (toString idx) 3 '0')),
        ("type", .str "technical"),
        ("description", .str description),
        ("impact", .str "medium")]

/-- Constraints parsed from the `sections.constraints` lines. -/
def constraintsFromLines : List String → Nat → List Value
  | [], _ => []
  | line :: rest, idx =>
    let cleaned := strTrim (stripBullet line)
    if cleaned.data.length > 5 then
      mkConstraint idx cleaned :: constraintsFromLines rest (idx + 1)
    else
      constraintsFromLines rest idx

/-- Model of `RequirementsStructurerAgent.extractConstraints`. -/
def extractConstraints (spec : Value) : List Value :=
  let cSection := getField (getField spec "sections") "constraints"
  if truthy cSection then
    constraintsFromLines ((strSplit (asStr cSection) "\n").filter sectionLineOk) 1
  else []

/-- First-occurrence-order deduplication (JavaScript `Set` iteration). -/
def dedupFirst : List String → List String
  | [] => []
  | x :: rest => x :: (dedupFirst rest).filter (fun y => y ≠ x)

/-- Actor type heuristic from the actor's name. -/
def actorType (actorName : String) : String :=
  if strContains (strLower actorName) "admin" then "admin"
  else if strContains (strLower actorName) "system" then "system"
  else "user"

/-- Actor records for the deduplicated actor names. -/
def actorsFromNames (useCases : List Value) : List String → Nat → List Value
  | [], _ => []
  | name :: rest, idx =>
    Value.obj [("id", .str ("A-" ++ strPadStart (toString idx) 3 '0')),
               ("name", .str name),
               ("type", .str (actorType name)),
               ("responsibilities", .arr ((useCases.filter
                 (fun uc => jsStrictEq (getField uc "actor") (.str name))).map
                 (fun uc => getField uc "action")))]
      :: actorsFromNames useCases rest (idx + 1)

/-- Model of `RequirementsStructurerAgent.extractActors`. -/
def extractActors (useCases : List Value) : List Value :=
  actorsFromNames useCases
    (dedupFirst (useCases.map (fun uc => asStr (getField uc "actor")))) 1

/-- JavaScript `s.replace(/[^a-f0-9]/g, '')`: keep lowercase hex digits. -/
def hexOnly (s : String) : String :=
  ⟨s.data.filter (fun c => decide (('a' ≤ c ∧ c ≤ 'f') ∨ ('0' ≤ c ∧ c ≤ '9')))⟩

/-- The design brief built by `RequirementsStructurerAgent.execute`: its
`id` embeds the first 32 hex characters of the per-run `runId`, and
`meta.createdAt` the run timestamp. -/
def reqStructurerBrief (input : Value) (context : AgentContext) : Value :=
  let goals := extractGoals input
  let useCases := extractUseCases input
  let constraints := extractConstraints input
  let actors := extractActors useCases
  let briefId := strTakeN (hexOnly context.runId) 32
  let sourceHashV := (mget context.previousOutputs "inputHash").getD .undefined
  .obj [("id", .str ("brief-" ++ briefId)),
        ("version", .str "0.1.0"),
        ("meta", .obj [("name", getField input "projectName"),
                       ("createdAt", .str context.timestamp),
                       ("sourceHash", if truthy sourceHashV then sourceHashV
                         else .str ("sha256:" ++ String.mk (List.replicate 64 '0'))),
                       ("description", getField input "description")]),
        ("goals", .arr goals),
        ("useCases", .arr useCases),
        ("constraints", .arr constraints),
        ("actors", .arr actors)]

/-- Model of `RequirementsStructurerAgent.execute` (never raises). -/
def reqStructurerExecute : StageLogic :=
  fun input context => .ok (reqStructurerBrief input context)

/-- The agent's declared configuration. -/
def requirementsStructurerConfig : AgentConfig :=
  { id := "requirements-structurer", name := "Requirements Structurer",
    description := "Transforms functional specifications into structured design briefs",
    version := "1.0.0",
    inputSchema := "https://architect-studio/schemas/functional-spec.json",
    outputSchema := "https://architect-studio/schemas/design-brief.json" }

/-- The requirements-structurer agent over the modelled `BaseAgent.run`. -/
def requirementsStructurerAgent (validator : SchemaValidatorFn) : Agent :=
  fun input ctx =>
    .ok (baseAgentRun requirementsStructurerConfig validator reqStructurerExecute input ctx)

/-- A one-stage pipeline run of the requirements structurer with a fixed
initial artifact and timestamp, parameterized by the `randomUUID` oracle. -/
def oneStageRun (runId : String) : (Except String PipelineResult) × AuditState :=
  pipelineRun [("requirements-structurer", requirementsStructurerAgent okValidator)]
    [{ agentId := "requirements-structurer", dependsOn := [] }]
    runId "2026-01-01T00:00:00.000Z"
    (.obj [("projectName", .str "Demo"), ("description", .str "demo spec")])

/-- Stage output hashes of a run, in audit order. -/
def runOutputHashes (run : (Except String PipelineResult) × AuditState) :
    Option (List (Option String)) :=
  run.1.toOption.map (fun r => r.audit.stages.map (fun s => s.outputHash))

set_option maxRecDepth 16384 in
/-- Counterexample to C6: the same initial artifact and timestamp but two
distinct run ids (as `randomUUID` yields on every run) give different
`outputHash` values for the requirements-structurer stage, because its
output embeds the runId-derived brief id. -/
theorem run_outputHash_counterexample :
    runOutputHashes (oneStageRun "aaaa1111") ≠ runOutputHashes (oneStageRun "bbbb2222") ∧
    (oneStageRun "aaaa1111").1.toOption.map (fun r => r.success) = some true ∧
    (oneStageRun "bbbb2222").1.toOption.map (fun r => r.success) = some true :=
  ⟨by decide, rfl, rfl⟩

set_option maxRecDepth 16384 in
/-- C6 (amended): the fingerprint itself is deterministic — `computeHash` is
a pure function of the structural value — but stage outputs are not
run-independent: the requirements-structurer brief embeds an id equal to
`"brief-"` followed by the first 32 hex characters of the per-run `runId`
(and the run timestamp as `createdAt`), so two runs with the same
`initialArtifact` but distinct run ids produce different `outputHash`
values for that stage. -/
theorem run_outputHash_depends_on_runId :
    (∀ input context, getField (reqStructurerBrief input context) "id"
      = .str ("brief-" ++ strTakeN (hexOnly context.runId) 32)) ∧
    (∀ v w : Value, v = w → computeHash v = computeHash w) ∧
    runOutputHashes (oneStageRun "aaaa1111") ≠ runOutputHashes (oneStageRun "bbbb2222") :=
  ⟨fun input context => rfl, fun v w h => by rw [h], by decide⟩

/-- Witness for C6 (amended): the determinism conjunct applied at a concrete
value. -/
theorem run_outputHash_depends_on_runId_witness :
    computeHash (.str "x") = computeHash (.str "x") :=
  run_outputHash_depends_on_runId.2.1 (.str "x") (.str "x") rfl

end ArchitectStudio
